import Mathlib

/-!
Verification of the media-hero-catch extension core against its specification.

The JavaScript sources are shallowly embedded:
* JS strings are Lean `String`s; character-level operations (split, trim,
  substring search, lower-casing) are implemented by structural recursion on
  `String.data` so that every definition is executable and kernel-reducible.
* JS numbers appearing in geometry and scoring are modelled as exact
  rationals (`ℚ`); integer quantities (retry counts, widths parsed from
  srcset descriptors, download ids) are `Nat`.
* The browser download transport is an oracle `Nat → Except String Nat`
  mapping an attempt index to either a download id (the transfer request was
  accepted and the terminal event was `complete`) or an error message (a
  synchronous rejection, an error event, or the 60s per-attempt timeout —
  the queue treats all three identically).
* Ambient browser globals (`window.location`, viewport size, `Date.now`,
  `Math.random`) are gathered in an explicit environment record `JSEnv`.
-/

namespace MediaHeroCatch

/-! ## Character-list string primitives (JS string semantics) -/

/-- Does the character list `s` begin with the pattern `p`? -/
def startsWithL : List Char → List Char → Bool
  | [], _ => true
  | _ :: _, [] => false
  | p :: ps, c :: cs => p = c && startsWithL ps cs

/-- JS `String.prototype.includes`: does `p` occur as a contiguous substring
of `s`? -/
def containsSubL (p : List Char) : List Char → Bool
  | [] => startsWithL p []
  | c :: cs => startsWithL p (c :: cs) || containsSubL p cs

/-- Split on a predicate, keeping empty fields (JS `split` with a
single-character separator keeps empties). The result is always nonempty. -/
def splitPredL (f : Char → Bool) : List Char → List (List Char)
  | [] => [[]]
  | c :: cs =>
    let r := splitPredL f cs
    if f c then [] :: r
    else
      match r with
      | [] => [[c]]
      | h :: t => (c :: h) :: t

/-- JS `String.prototype.trim` (whitespace from both ends). -/
def trimL (s : List Char) : List Char :=
  ((s.dropWhile Char.isWhitespace).reverse.dropWhile Char.isWhitespace).reverse

/-- JS `split(/\s+/)` as applied to an already-trimmed string: splitting an
empty string yields `[""]`, otherwise maximal whitespace runs separate the
fields and no empty fields remain. -/
def splitWsJS (s : List Char) : List (List Char) :=
  match s with
  | [] => [[]]
  | _ => (splitPredL Char.isWhitespace s).filter (· ≠ [])

/-- JS `String.prototype.toLowerCase` (ASCII range, which is all the source
compares against). -/
def toLowerL (s : List Char) : List Char := s.map Char.toLower

/-- Index of the last occurrence of `c` in `l` (JS `lastIndexOf`, with
`none` for JS `-1`). -/
def lastIdxOf (c : Char) : List Char → Option Nat
  | [] => none
  | x :: xs =>
    match lastIdxOf c xs with
    | some j => some (j + 1)
    | none => if x = c then some 0 else none

/-- `parseInt(·, 10)` on a list of decimal digits. -/
def natOfDigits (l : List Char) : Nat :=
  l.foldl (fun n c => n * 10 + (c.toNat - 48)) 0

/-- String-level wrapper for `containsSubL` (JS `includes`). -/
def containsS (p s : String) : Bool := containsSubL p.data s.data

/-- String-level wrapper for `toLowerL`. -/
def jsToLower (s : String) : String := ⟨toLowerL s.data⟩

/-! ### Lemmas about the string primitives -/

theorem startsWithL_iff_exists (p s : List Char) :
    startsWithL p s = true ↔ ∃ t, s = p ++ t := by
  induction p generalizing s with
  | nil => simp [startsWithL]
  | cons c ps ih =>
    cases s with
    | nil => simp [startsWithL]
    | cons d ds =>
      simp only [startsWithL, Bool.and_eq_true, decide_eq_true_eq, ih]
      constructor
      · rintro ⟨rfl, t, rfl⟩; exact ⟨t, rfl⟩
      · rintro ⟨t, ht⟩
        cases ht
        exact ⟨rfl, t, rfl⟩

theorem startsWithL_append_self (p t : List Char) :
    startsWithL p (p ++ t) = true :=
  (startsWithL_iff_exists p _).mpr ⟨t, rfl⟩

theorem startsWithL_append_right {p s : List Char} (h : startsWithL p s = true)
    (t : List Char) : startsWithL p (s ++ t) = true := by
  obtain ⟨r, rfl⟩ := (startsWithL_iff_exists p s).mp h
  rw [List.append_assoc]
  exact startsWithL_append_self p _

theorem startsWithL_ne_nil {p : List Char} {s : List Char}
    (hp : p ≠ []) (h : startsWithL p s = true) : s ≠ [] := by
  obtain ⟨r, rfl⟩ := (startsWithL_iff_exists p s).mp h
  cases p with
  | nil => exact absurd rfl hp
  | cons c cs => simp

theorem startsWithL_take {p r : List Char} {k : Nat} (hk : p.length ≤ k) :
    startsWithL p ((p ++ r).take k) = true := by
  induction p generalizing k with
  | nil => simp [startsWithL]
  | cons c ps ih =>
    cases k with
    | zero => simp at hk
    | succ k' =>
      simp only [List.cons_append, List.take_succ_cons, startsWithL,
        Bool.and_eq_true, decide_eq_true_eq]
      exact ⟨trivial, ih (Nat.le_of_succ_le_succ hk)⟩

theorem lastIdxOf_isSome_of_mem {c : Char} {l : List Char} (h : c ∈ l) :
    ∃ j, lastIdxOf c l = some j := by
  induction l with
  | nil => simp at h
  | cons x xs ih =>
    rcases List.mem_cons.mp h with h' | h'
    · subst h'
      cases hx : lastIdxOf c xs with
      | none => exact ⟨0, by simp [lastIdxOf, hx]⟩
      | some j => exact ⟨j + 1, by simp [lastIdxOf, hx]⟩
    · obtain ⟨j, hj⟩ := ih h'
      exact ⟨j + 1, by simp [lastIdxOf, hj]⟩

theorem lastIdxOf_ge_of_mem_drop {c : Char} {l : List Char} {i : Nat}
    (h : c ∈ l.drop i) : ∃ j, lastIdxOf c l = some j ∧ i ≤ j := by
  induction i generalizing l with
  | zero =>
    obtain ⟨j, hj⟩ := lastIdxOf_isSome_of_mem (by simpa using h)
    exact ⟨j, hj, Nat.zero_le j⟩
  | succ i' ih =>
    cases l with
    | nil => simp at h
    | cons x xs =>
      obtain ⟨j, hj, hij⟩ := ih (by simpa using h)
      exact ⟨j + 1, by simp [lastIdxOf, hj], Nat.succ_le_succ hij⟩

theorem lastIdxOf_eq_none_of_not_mem {c : Char} {l : List Char} (h : c ∉ l) :
    lastIdxOf c l = none := by
  induction l with
  | nil => rfl
  | cons x xs ih =>
    have hx : ¬x = c := fun he => h (he ▸ List.mem_cons_self x xs)
    have hxs : c ∉ xs := fun hm => h (List.mem_cons_of_mem _ hm)
    simp [lastIdxOf, ih hxs, hx]

theorem lastIdxOf_append_not_mem {c : Char} {l r : List Char} (h : c ∉ r) :
    lastIdxOf c (l ++ c :: r) = some l.length := by
  induction l with
  | nil => simp [lastIdxOf, lastIdxOf_eq_none_of_not_mem h]
  | cons x xs ih => simp [lastIdxOf, ih]

/-! ## Configuration (src/shared/config.js) -/

namespace Config

/-- `CONFIG.detection.minHeroSize` -/
def minHeroSize : ℚ := 200

/-- `CONFIG.detection.iconThreshold` -/
def iconThreshold : ℚ := 100

/-- `CONFIG.detection.viewportBonusVisible` -/
def viewportBonusVisible : ℚ := 1.5

/-- `CONFIG.detection.viewportBonusPartial` -/
def viewportBonusPartial : ℚ := 1.2

/-- `CONFIG.detection.qualityBonusHD` -/
def qualityBonusHD : ℚ := 1.3

/-- `CONFIG.detection.qualityBonusSD` -/
def qualityBonusSD : ℚ := 1.1

/-- `CONFIG.downloads.retryAttempts` -/
def retryAttempts : Nat := 3

/-- `CONFIG.downloads.retryDelays` (ms) -/
def retryDelays : List Nat := [2000, 4000, 8000]

/-- `CONFIG.instagram.maxCarouselItems` -/
def maxCarouselItems : Nat := 10

/-- `CONFIG.generic.excludeClassNames` -/
def excludeClassNames : List String :=
  ["ad", "advertisement", "sponsor", "banner", "icon", "avatar",
   "thumbnail-small", "logo"]

/-- `CONFIG.generic.excludeBySize` -/
def excludeBySize : Bool := true

/-- `CONFIG.generic.prioritizeVideos` -/
def prioritizeVideos : Bool := true

end Config

/-! ## Browser environment -/

/-- The relevant parts of `window.location`. -/
structure Loc where
  protocol : String
  origin : String
  href : String
  hostname : String
deriving DecidableEq

/-- Ambient browser globals threaded explicitly: location, viewport size,
`Date.now()`, and the random filename infix produced by
`Math.random().toString(36).substring(2, 6)`. -/
structure JSEnv where
  loc : Loc
  innerWidth : ℚ
  innerHeight : ℚ
  now : Nat
  rnd : String
deriving DecidableEq

/-! ## makeAbsoluteUrl (media-extractor.js lines 90-119) -/

/-- The base prefix JS computes for relative paths:
`href.substring(0, href.lastIndexOf('/') + 1)` (empty when there is no
slash, since `lastIndexOf` then returns `-1`). -/
def hrefBase (h : List Char) : List Char :=
  h.take (match lastIdxOf '/' h with | some i => i + 1 | none => 0)

/-- `makeAbsoluteUrl`, character-list level. The `try`/`catch` in the source
is dead for these total string operations. -/
def makeAbsoluteUrlL (loc : Loc) (u : List Char) : List Char :=
  if u = [] then u
  else if startsWithL "http://".data u || startsWithL "https://".data u then u
  else if startsWithL "//".data u then loc.protocol.data ++ u
  else if startsWithL "/".data u then loc.origin.data ++ u
  else hrefBase loc.href.data ++ u

/-- `makeAbsoluteUrl` (string level). -/
def makeAbsoluteUrl (loc : Loc) (url : String) : String :=
  ⟨makeAbsoluteUrlL loc url.data⟩

theorem makeAbsoluteUrlL_of_http {loc : Loc} {u : List Char}
    (h : (startsWithL "http://".data u || startsWithL "https://".data u) = true) :
    makeAbsoluteUrlL loc u = u := by
  have hne : u ≠ [] := by
    rcases Bool.or_eq_true_iff.mp h with h' | h'
    · exact startsWithL_ne_nil (by decide) h'
    · exact startsWithL_ne_nil (by decide) h'
  simp [makeAbsoluteUrlL, hne, h]

/-- If `href` begins with `http(s)://`, the base prefix computed for
relative paths still begins with `http(s)://`: the scheme's own second
slash guarantees `lastIndexOf('/') + 1` reaches past the scheme. -/
theorem hrefBase_startsWith (p : List Char) {r : List Char} (hp : p ≠ [])
    (hlast : p.getLast hp = '/') :
    startsWithL p (hrefBase (p ++ r)) = true := by
  have hsplit : p.dropLast ++ '/' :: r = p ++ r := by
    conv_rhs => rw [← List.dropLast_append_getLast hp]
    rw [hlast, List.append_assoc]
    rfl
  have hdrop : '/' ∈ (p ++ r).drop (p.length - 1) := by
    rw [← hsplit, ← List.length_dropLast, List.drop_left]
    simp
  obtain ⟨j, hj, hij⟩ := lastIdxOf_ge_of_mem_drop hdrop
  have hlen : p.length ≤ j + 1 := by
    have := Nat.succ_le_succ hij
    omega
  unfold hrefBase
  rw [hj]
  exact startsWithL_take hlen

/-- On an `http(s)` page every output of `makeAbsoluteUrlL` is either empty
or begins with `http://`/`https://`, hence is a fixpoint. -/
theorem makeAbsoluteUrlL_idem (loc : Loc)
    (hp : loc.protocol = "http:" ∨ loc.protocol = "https:")
    (ho : (startsWithL "http://".data loc.origin.data
        || startsWithL "https://".data loc.origin.data) = true)
    (hh : (startsWithL "http://".data loc.href.data
        || startsWithL "https://".data loc.href.data) = true)
    (u : List Char) :
    makeAbsoluteUrlL loc (makeAbsoluteUrlL loc u) = makeAbsoluteUrlL loc u := by
  by_cases hu : u = []
  · subst hu; simp [makeAbsoluteUrlL]
  by_cases h2 : (startsWithL "http://".data u || startsWithL "https://".data u) = true
  · rw [makeAbsoluteUrlL_of_http h2, makeAbsoluteUrlL_of_http h2]
  by_cases h3 : startsWithL "//".data u = true
  · have hres : makeAbsoluteUrlL loc u = loc.protocol.data ++ u := by
      simp [makeAbsoluteUrlL, hu, h2, h3]
    rw [hres]
    obtain ⟨t, rfl⟩ := (startsWithL_iff_exists _ _).mp h3
    apply makeAbsoluteUrlL_of_http
    apply Bool.or_eq_true_iff.mpr
    rcases hp with hp' | hp'
    · left
      rw [hp', show ("http://".data : List Char) = "http:".data ++ "//".data from by decide,
        ← List.append_assoc]
      exact startsWithL_append_self _ _
    · right
      rw [hp', show ("https://".data : List Char) = "https:".data ++ "//".data from by decide,
        ← List.append_assoc]
      exact startsWithL_append_self _ _
  by_cases h4 : startsWithL "/".data u = true
  · have hres : makeAbsoluteUrlL loc u = loc.origin.data ++ u := by
      simp [makeAbsoluteUrlL, hu, h2, h3, h4]
    rw [hres]
    apply makeAbsoluteUrlL_of_http
    apply Bool.or_eq_true_iff.mpr
    rcases Bool.or_eq_true_iff.mp ho with h' | h'
    · exact Or.inl (startsWithL_append_right h' u)
    · exact Or.inr (startsWithL_append_right h' u)
  · have hres : makeAbsoluteUrlL loc u = hrefBase loc.href.data ++ u := by
      simp [makeAbsoluteUrlL, hu, h2, h3, h4]
    rw [hres]
    apply makeAbsoluteUrlL_of_http
    apply Bool.or_eq_true_iff.mpr
    rcases Bool.or_eq_true_iff.mp hh with h' | h'
    · obtain ⟨r, hr⟩ := (startsWithL_iff_exists _ _).mp h'
      rw [hr]
      exact Or.inl (startsWithL_append_right
        (hrefBase_startsWith "http://".data (by decide) (by decide)) u)
    · obtain ⟨r, hr⟩ := (startsWithL_iff_exists _ _).mp h'
      rw [hr]
      exact Or.inr (startsWithL_append_right
        (hrefBase_startsWith "https://".data (by decide) (by decide)) u)

/-! ## Srcset parsing (media-extractor.js lines 38-59) -/

/-- One parsed srcset source: `{ url, width }`. -/
structure SrcsetEntry where
  url : String
  width : Nat
deriving DecidableEq

/-- One element of `srcset.split(',')`, mapped as in the source: trim, split
on whitespace runs, take `parts[0]` as the url and `parts[1] || ''` as the
descriptor, and parse the descriptor against `^(\d+)w$` (anything else,
including a missing descriptor, gives width 0). -/
def parseSrcsetPiece (piece : List Char) : SrcsetEntry :=
  let t := trimL piece
  let parts := splitWsJS t
  let url := parts.headD []
  let descriptor := parts.getD 1 []
  let width :=
    if descriptor.getLast? = some 'w' ∧ descriptor.dropLast ≠ []
        ∧ descriptor.dropLast.all Char.isDigit
    then natOfDigits descriptor.dropLast
    else 0
  ⟨⟨url⟩, width⟩

/-- The parsed source list of a srcset attribute value. -/
def parseSrcset (s : String) : List SrcsetEntry :=
  (splitPredL (· = ',') s.data).map parseSrcsetPiece

/-- Stable insertion used to model the JS stable `sort((a, b) => b.width -
a.width)`: an element moves left past strictly smaller widths only, so
entries of equal width keep their original relative order. -/
def insertEntryDesc (e : SrcsetEntry) : List SrcsetEntry → List SrcsetEntry
  | [] => [e]
  | y :: ys => if y.width ≤ e.width then e :: y :: ys else y :: insertEntryDesc e ys

/-- Stable sort of srcset entries by declared width, descending. -/
def sortEntriesDesc : List SrcsetEntry → List SrcsetEntry
  | [] => []
  | e :: es => insertEntryDesc e (sortEntriesDesc es)

/-- `getHighestResolutionFromSrcset`: parse, sort descending by width, and
return `sources[0]?.url || null`. -/
def getHighestResolutionFromSrcset (s : String) : Option String :=
  if s = "" then none
  else
    match (sortEntriesDesc (parseSrcset s)).head? with
    | none => none
    | some e => if e.url = "" then none else some e.url

/-- Specification-side selection: the first entry attaining the maximum
declared width (the spec's "maximum declared width, ties broken by first
occurrence"). -/
def firstMaxEntry : List SrcsetEntry → Option SrcsetEntry
  | [] => none
  | e :: es =>
    match firstMaxEntry es with
    | none => some e
    | some m => if m.width ≤ e.width then some e else some m

theorem insertEntryDesc_ne_nil (e : SrcsetEntry) (l : List SrcsetEntry) :
    insertEntryDesc e l ≠ [] := by
  cases l with
  | nil => simp [insertEntryDesc]
  | cons y ys =>
    by_cases h : y.width ≤ e.width <;> simp [insertEntryDesc, h]

theorem sortEntriesDesc_eq_nil_iff (l : List SrcsetEntry) :
    sortEntriesDesc l = [] ↔ l = [] := by
  cases l with
  | nil => simp [sortEntriesDesc]
  | cons e es =>
    simp only [sortEntriesDesc]
    exact ⟨fun h => absurd h (insertEntryDesc_ne_nil e _), fun h => by simp at h⟩

theorem firstMaxEntry_eq_none_iff (l : List SrcsetEntry) :
    firstMaxEntry l = none ↔ l = [] := by
  cases l with
  | nil => simp [firstMaxEntry]
  | cons e es =>
    simp only [firstMaxEntry]
    constructor
    · intro h
      cases hm : firstMaxEntry es with
      | none => rw [hm] at h; simp at h
      | some m =>
        rw [hm] at h
        by_cases hw : m.width ≤ e.width <;> simp [hw] at h
    · intro h; simp at h

theorem head_insertEntryDesc (e : SrcsetEntry) (l : List SrcsetEntry) :
    (insertEntryDesc e l).head? =
      match l with
      | [] => some e
      | y :: _ => if y.width ≤ e.width then some e else some y := by
  cases l with
  | nil => rfl
  | cons y ys =>
    by_cases h : y.width ≤ e.width <;> simp [insertEntryDesc, h]

/-- The head of the stable descending sort is exactly the first-occurring
entry of maximum width. -/
theorem head_sortEntriesDesc (l : List SrcsetEntry) :
    (sortEntriesDesc l).head? = firstMaxEntry l := by
  induction l with
  | nil => rfl
  | cons a t ih =>
    simp only [sortEntriesDesc, firstMaxEntry]
    rw [head_insertEntryDesc]
    cases hs : sortEntriesDesc t with
    | nil =>
      have ht : t = [] := (sortEntriesDesc_eq_nil_iff t).mp hs
      subst ht
      simp [firstMaxEntry]
    | cons y ys =>
      have hy : firstMaxEntry t = some y := by
        rw [← ih, hs]; rfl
      rw [hy]

theorem firstMaxEntry_is_max {l : List SrcsetEntry} {m : SrcsetEntry}
    (h : firstMaxEntry l = some m) : ∀ y ∈ l, y.width ≤ m.width := by
  induction l generalizing m with
  | nil => simp [firstMaxEntry] at h
  | cons a t ih =>
    cases hm : firstMaxEntry t with
    | none =>
      simp only [firstMaxEntry, hm] at h
      have ht : t = [] := (firstMaxEntry_eq_none_iff t).mp hm
      subst ht
      cases h
      intro y hy
      simp at hy
      simp [hy]
    | some m' =>
      simp only [firstMaxEntry, hm] at h
      by_cases hw : m'.width ≤ a.width
      · rw [if_pos hw] at h
        cases h
        intro y hy
        rcases List.mem_cons.mp hy with rfl | hy'
        · exact Nat.le_refl _
        · exact Nat.le_trans (ih hm y hy') hw
      · rw [if_neg hw] at h
        cases h
        intro y hy
        rcases List.mem_cons.mp hy with rfl | hy'
        · exact Nat.le_of_lt (Nat.lt_of_not_le hw)
        · exact ih hm y hy'

/-- The first-max entry splits the list into a strictly-smaller prefix and a
no-larger suffix: it attains the maximum width and is the first to do so. -/
theorem firstMaxEntry_split {l : List SrcsetEntry} {m : SrcsetEntry}
    (h : firstMaxEntry l = some m) :
    ∃ pre post, l = pre ++ m :: post
      ∧ (∀ y ∈ pre, y.width < m.width) ∧ (∀ y ∈ post, y.width ≤ m.width) := by
  induction l generalizing m with
  | nil => simp [firstMaxEntry] at h
  | cons a t ih =>
    cases hm : firstMaxEntry t with
    | none =>
      simp only [firstMaxEntry, hm] at h
      have ht : t = [] := (firstMaxEntry_eq_none_iff t).mp hm
      subst ht
      cases h
      exact ⟨[], [], rfl, by simp, by simp⟩
    | some m' =>
      simp only [firstMaxEntry, hm] at h
      by_cases hw : m'.width ≤ a.width
      · rw [if_pos hw] at h
        cases h
        refine ⟨[], t, rfl, by simp, fun y hy => ?_⟩
        exact Nat.le_trans (firstMaxEntry_is_max hm y hy) hw
      · rw [if_neg hw] at h
        cases h
        obtain ⟨pre, post, hsplit, hpre, hpost⟩ := ih hm
        refine ⟨a :: pre, post, by rw [hsplit]; rfl, fun y hy => ?_, hpost⟩
        rcases List.mem_cons.mp hy with rfl | hy'
        · exact Nat.lt_of_not_le hw
        · exact hpre y hy'

/-! ## DOM element model

A single record models the DOM elements the detectors read: images, videos
and generic styled elements all carry the same host-provided fields, so one
structure serves every call site (fields a given element kind lacks keep
their defaults). -/

/-- `getBoundingClientRect()` result. -/
structure Rect where
  top : ℚ := 0
  bottom : ℚ := 0
  left : ℚ := 0
  right : ℚ := 0
  width : ℚ := 0
  height : ℚ := 0
deriving DecidableEq

/-- An ancestor in the parent chain, with the fields the Instagram
profile-picture walk reads. -/
structure Ancestor where
  className : String := ""
  role : String := ""
  borderRadius : String := ""
deriving DecidableEq

/-- A DOM element as seen by the detectors. `tagName` is stored lowercase;
`instanceof HTMLImageElement` / `HTMLVideoElement` is modelled as
`tagName = "img"` / `"video"`. `sources` holds the `src` of child `source`
elements; absent string attributes are `""`; `backgroundImage` is the
computed style value (`"none"` when unset). `ancestors` is the parent
chain, nearest parent first. -/
structure El where
  tagName : String := "img"
  className : String := ""
  alt : String := ""
  src : String := ""
  srcset : String := ""
  sources : List String := []
  playsinline : Bool := false
  naturalWidth : Nat := 0
  naturalHeight : Nat := 0
  videoWidth : Nat := 0
  videoHeight : Nat := 0
  rect : Rect := {}
  display : String := "block"
  visibility : String := "visible"
  opacity : String := "1"
  hasOffsetParent : Bool := true
  backgroundImage : String := "none"
  ancestors : List Ancestor := []
deriving DecidableEq

/-! ## Media extractor (media-extractor.js) -/

/-- A produced media object. `position`/`totalItems` model the JS fields
added by the carousel numbering map: `none` when the field was never
assigned. -/
structure MediaObj where
  url : String
  filename : String
  type : String
  score : ℚ
  element : String
  timestamp : Nat
  position : Option Nat := none
  totalItems : Option Nat := none
deriving DecidableEq

/-- `isValidMediaUrl`: non-empty string, http(s) scheme, not a `data:` URL,
at most 2048 characters. -/
def isValidMediaUrl (url : String) : Bool :=
  if url = "" then false
  else if !(startsWithL "http://".data url.data
      || startsWithL "https://".data url.data) then false
  else if startsWithL "data:".data url.data then false
  else if 2048 < url.data.length then false
  else true

/-- `guessExtensionFromUrl`: case-insensitive substring checks in the
source's fixed order, defaulting to `jpg`. -/
def guessExtensionFromUrl (url : String) : String :=
  if url = "" then "jpg"
  else
    let l := jsToLower url
    if containsS ".png" l then "png"
    else if containsS ".gif" l then "gif"
    else if containsS ".webp" l then "webp"
    else if containsS ".svg" l then "svg"
    else if containsS ".bmp" l then "bmp"
    else if containsS ".mp4" l then "mp4"
    else if containsS ".webm" l then "webm"
    else if containsS ".mov" l then "mov"
    else if containsS ".avi" l then "avi"
    else "jpg"

/-- `generateFilename`: `media_{timestamp}_{random}.{ext}` with the ambient
timestamp and random infix from the environment. -/
def generateFilename (env : JSEnv) (url : String) : String :=
  "media_" ++ Nat.repr env.now ++ "_" ++ env.rnd ++ "." ++ guessExtensionFromUrl url

/-- Drop a query string / fragment. -/
def stripQueryFrag (s : List Char) : List Char :=
  s.takeWhile (fun c => (c != '?') && (c != '#'))

/-- Pathname of an absolute URL once the scheme is removed: skip the
authority, keep from the first `/` to the query/fragment (an empty path
reads as `/`). -/
def pathnameAfterScheme (rest : List Char) : List Char :=
  let afterAuth := rest.dropWhile (fun c => (c != '/') && (c != '?') && (c != '#'))
  match afterAuth with
  | '/' :: _ => stripQueryFrag afterAuth
  | _ => ['/']

/-- Models the host URL parser consumed by `extractFilenameFromUrl`:
`new URL(url, base).pathname` for the http(s) URLs this extension handles.
Relative references are resolved against the base document's directory;
dot-segment normalization is not modelled (no produced URL contains dot
segments). -/
def urlPathnameL (base u : List Char) : List Char :=
  if startsWithL "http://".data u then pathnameAfterScheme (u.drop 7)
  else if startsWithL "https://".data u then pathnameAfterScheme (u.drop 8)
  else if startsWithL "//".data u then pathnameAfterScheme (u.drop 2)
  else if startsWithL "/".data u then stripQueryFrag u
  else
    let basePath :=
      if startsWithL "http://".data base then pathnameAfterScheme (base.drop 7)
      else if startsWithL "https://".data base then pathnameAfterScheme (base.drop 8)
      else ['/']
    let dir := basePath.take (match lastIdxOf '/' basePath with | some i => i + 1 | none => 0)
    stripQueryFrag (dir ++ u)

/-- `extractFilenameFromUrl`: last pathname segment when it has an
extension, else a generated `media_…` name. -/
def extractFilenameFromUrl (env : JSEnv) (url : String) : String :=
  if url = "" then "media"
  else
    let pathname := urlPathnameL env.loc.href.data url.data
    let filename :=
      pathname.drop (match lastIdxOf '/' pathname with | some i => i + 1 | none => 0)
    if (!filename.isEmpty) && filename.contains '.' then ⟨filename⟩
    else generateFilename env url

/-- `createMediaObject`. -/
def createMediaObject (env : JSEnv) (url : String) (mtype : String)
    (tagName : String) (score : ℚ) : MediaObj :=
  { url := makeAbsoluteUrl env.loc url
    filename := extractFilenameFromUrl env url
    type := mtype
    score := score
    element := jsToLower tagName
    timestamp := env.now }

/-- `extractImageUrl`: prefer the highest-resolution srcset entry, fall back
to `src`. -/
def extractImageUrl (loc : Loc) (img : El) : Option String :=
  if img.srcset ≠ "" then
    match getHighestResolutionFromSrcset img.srcset with
    | some h => some (makeAbsoluteUrl loc h)
    | none =>
      if img.src ≠ "" then some (makeAbsoluteUrl loc img.src) else none
  else if img.src ≠ "" then some (makeAbsoluteUrl loc img.src) else none

/-- `extractVideoUrl`: direct `src`, else the first child `source` (later
sources are not consulted when the first lacks a `src`). -/
def extractVideoUrl (loc : Loc) (v : El) : Option String :=
  if v.src ≠ "" then some (makeAbsoluteUrl loc v.src)
  else
    match v.sources with
    | [] => none
    | s0 :: _ => if s0 ≠ "" then some (makeAbsoluteUrl loc s0) else none

/-- Is `c` a single or double quote? (`[^'"]` in the source regex). -/
def quoteChar (c : Char) : Bool := c = Char.ofNat 39 || c = '"'

/-- Models the source regex `url\(['"]?([^'"]+)['"]?\)` scanning for its
first match: at each `url(` the optional quote is skipped and the greedy
non-quote capture backtracks to the closing `)` (for unquoted values the
capture thus runs to the last `)` of the non-quote chunk). -/
def bgUrlCapture : List Char → Option (List Char)
  | [] => none
  | c :: cs =>
    if startsWithL "url(".data (c :: cs) then
      match (c :: cs).drop 4 with
      | [] => none
      | q :: qs =>
        if quoteChar q then
          let chunk := qs.takeWhile (fun x => !(quoteChar x))
          if chunk ≠ [] then some chunk else bgUrlCapture cs
        else
          let chunk := (q :: qs).takeWhile (fun x => !(quoteChar x))
          match lastIdxOf ')' chunk with
          | some i => if i ≠ 0 then some (chunk.take i) else bgUrlCapture cs
          | none => bgUrlCapture cs
    else bgUrlCapture cs

/-- `extractBackgroundImageUrl` (dom-analyzer): first `url(...)` token of
the computed `backgroundImage`. -/
def extractBackgroundImageUrl (el : El) : Option String :=
  if el.backgroundImage = "" ∨ el.backgroundImage = "none" then none
  else (bgUrlCapture el.backgroundImage.data).map (fun l => (⟨l⟩ : String))

/-! ## DOM analyzer (dom-analyzer.js) -/

/-- Effective size `{width, height, area}`. -/
structure SizeQ where
  width : ℚ
  height : ℚ
  area : ℚ
deriving DecidableEq

/-- `calculateElementSize`: natural dimensions for images, video dimensions
for videos, bounding-box fallback otherwise. -/
def calculateElementSize (el : El) : SizeQ :=
  if el.tagName = "img" ∧ 0 < el.naturalWidth ∧ 0 < el.naturalHeight then
    ⟨el.naturalWidth, el.naturalHeight, (el.naturalWidth : ℚ) * el.naturalHeight⟩
  else if el.tagName = "video" ∧ 0 < el.videoWidth ∧ 0 < el.videoHeight then
    ⟨el.videoWidth, el.videoHeight, (el.videoWidth : ℚ) * el.videoHeight⟩
  else
    ⟨el.rect.width, el.rect.height, el.rect.width * el.rect.height⟩

/-- `getViewportVisibility`: `'none'` when fully outside on some axis,
`'fully'` when all four edges are inside, else `'partially'`. -/
def getViewportVisibility (env : JSEnv) (el : El) : String :=
  let r := el.rect
  if r.bottom < 0 ∨ r.top > env.innerHeight ∨ r.right < 0 ∨ r.left > env.innerWidth then
    "none"
  else if 0 ≤ r.top ∧ 0 ≤ r.left ∧ r.bottom ≤ env.innerHeight ∧ r.right ≤ env.innerWidth then
    "fully"
  else "partially"

/-- `calculateViewportBonus`. -/
def calculateViewportBonus (env : JSEnv) (el : El) : ℚ :=
  match getViewportVisibility env el with
  | "fully" => Config.viewportBonusVisible
  | "partially" => Config.viewportBonusPartial
  | _ => 1

/-- `calculateQualityBonus`, keyed on the width component. -/
def calculateQualityBonus (width : ℚ) : ℚ :=
  if 1920 < width then Config.qualityBonusHD
  else if 1280 < width then Config.qualityBonusSD
  else 1

/-- `shouldExcludeByClassName`: case-insensitive substring match against the
configured denylist. -/
def shouldExcludeByClassName (el : El) : Bool :=
  Config.excludeClassNames.any (fun c => containsS c (jsToLower el.className))

/-- `isTooSmall` (hero minimum). -/
def isTooSmall (s : SizeQ) : Bool :=
  decide (s.width < Config.minHeroSize ∨ s.height < Config.minHeroSize)

/-- `isIcon` (icon maximum). -/
def isIcon (s : SizeQ) : Bool :=
  decide (s.width < Config.iconThreshold ∨ s.height < Config.iconThreshold)

/-- `isElementVisible`: CSS display/visibility/opacity and a live layout
parent. -/
def isElementVisible (el : El) : Bool :=
  (el.display != "none") && (el.visibility != "hidden") && (el.opacity != "0")
    && el.hasOffsetParent

/-- `filterElements`: visibility, hero minimum, icon threshold (when
configured), class denylist — in the source's order. -/
def filterElements (els : List El) : List El :=
  els.filter (fun el =>
    isElementVisible el &&
      (let size := calculateElementSize el
       !(isTooSmall size) && !(Config.excludeBySize && isIcon size)
         && !(shouldExcludeByClassName el)))

/-- The score each generic-detector stage computes:
`size.area * viewportBonus * qualityBonus`. -/
def candidateScore (env : JSEnv) (el : El) : ℚ :=
  let size := calculateElementSize el
  size.area * calculateViewportBonus env el * calculateQualityBonus size.width

/-! ## Generic hero detector (generic-detector.js) -/

/-- The element populations the generic detector enumerates
(`getAllImages`, `getAllVideos`, and the whole-document scan behind
`getElementsWithBackgroundImages`). -/
structure GenericPage where
  images : List El := []
  videos : List El := []
  allElements : List El := []
deriving DecidableEq

/-- Stable insertion for the JS stable `sort((a, b) => b.score - a.score)`
on scored candidates. -/
def insertScoredDesc (x : El × ℚ) : List (El × ℚ) → List (El × ℚ)
  | [] => [x]
  | y :: ys => if y.2 ≤ x.2 then x :: y :: ys else y :: insertScoredDesc x ys

/-- Stable sort of scored candidates, descending by score. -/
def sortScoredDesc : List (El × ℚ) → List (El × ℚ)
  | [] => []
  | x :: xs => insertScoredDesc x (sortScoredDesc xs)

/-- `detectHeroVideo`: filter, score, take the top scorer, extract and
validate its URL. -/
def detectHeroVideo (env : JSEnv) (page : GenericPage) : Option MediaObj :=
  let valid := filterElements page.videos
  match (sortScoredDesc (valid.map (fun v => (v, candidateScore env v)))).head? with
  | none => none
  | some (w, score) =>
    match extractVideoUrl env.loc w with
    | none => none
    | some url =>
      if isValidMediaUrl url then some (createMediaObject env url "video" w.tagName score)
      else none

/-- `detectHeroImage`. -/
def detectHeroImage (env : JSEnv) (page : GenericPage) : Option MediaObj :=
  let valid := filterElements page.images
  match (sortScoredDesc (valid.map (fun v => (v, candidateScore env v)))).head? with
  | none => none
  | some (w, score) =>
    match extractImageUrl env.loc w with
    | none => none
    | some url =>
      if isValidMediaUrl url then some (createMediaObject env url "image" w.tagName score)
      else none

/-- `detectHeroBackgroundImage` over the elements whose computed
`backgroundImage` is set (`getElementsWithBackgroundImages`). -/
def detectHeroBackgroundImage (env : JSEnv) (page : GenericPage) : Option MediaObj :=
  let els := page.allElements.filter
    (fun el => (el.backgroundImage != "") && (el.backgroundImage != "none"))
  let valid := filterElements els
  match (sortScoredDesc (valid.map (fun v => (v, candidateScore env v)))).head? with
  | none => none
  | some (w, score) =>
    match extractBackgroundImageUrl w with
    | none => none
    | some url =>
      if isValidMediaUrl url then some (createMediaObject env url "image" w.tagName score)
      else none

/-- Stages 2 and 3 of the generic pipeline. -/
def genericImageStages (env : JSEnv) (page : GenericPage) : List MediaObj :=
  match detectHeroImage env page with
  | some m => [m]
  | none =>
    match detectHeroBackgroundImage env page with
    | some m => [m]
    | none => []

/-- Generic `detectHeroMedia`: video stage first (when configured), then
images, then background images; at most one result. -/
def genericDetectHeroMedia (env : JSEnv) (page : GenericPage) : List MediaObj :=
  if Config.prioritizeVideos then
    match detectHeroVideo env page with
    | some v => [v]
    | none => genericImageStages env page
  else genericImageStages env page

/-! ## Instagram detector (instagram-detector.js) -/

/-- A media child of the post container, in DOM order. -/
inductive ArticleNode
  | image (el : El)
  | video (el : El)
deriving DecidableEq

/-- The `article` post container with its media children in DOM order. -/
structure Article where
  nodes : List ArticleNode
deriving DecidableEq

/-- `article.querySelectorAll('img[srcset]')` / `'video'` projections, each
in DOM order. -/
def articleImgs (a : Article) : List El :=
  a.nodes.filterMap (fun n => match n with | .image el => some el | .video _ => none)

def articleVideos (a : Article) : List El :=
  a.nodes.filterMap (fun n => match n with | .image _ => none | .video el => some el)

/-- `img[srcset]` attribute filter (absent attributes are modelled as
`""`). -/
def articleSrcsetImgs (a : Article) : List El :=
  (articleImgs a).filter (fun i => i.srcset ≠ "")

/-- The page-level signals the Instagram detector queries. -/
structure InstaPage where
  article : Option Article := none
  documentVideos : List El := []
  hasNextButton : Bool := false
  hasPrevButton : Bool := false
  hasTablist : Bool := false
deriving DecidableEq

/-- `hasCarouselIndicators`: next/previous navigation buttons or a
`role="tablist"` indicator. -/
def hasCarouselIndicators (p : InstaPage) : Bool :=
  p.hasNextButton || p.hasPrevButton || p.hasTablist

/-- `isProfilePicture`: alt-text keywords, a bounded ancestor walk for
profile classes/roles or circular styling, or small near-square bounds. -/
def isProfilePicture (img : El) : Bool :=
  let alt := jsToLower img.alt
  (containsSubL ("profile picture".data) alt.data
      || containsSubL (Char.ofNat 39 :: "s profile picture".data) alt.data)
    || (img.ancestors.take 5).any (fun p =>
        containsS "profile" (jsToLower p.className)
          || containsS "profile" (jsToLower p.role)
          || (p.borderRadius == "50%"))
    || decide (img.rect.width < 150 ∧ img.rect.height < 150
        ∧ |img.rect.width - img.rect.height| < 10)

/-- `isUIElement`: icon-vocabulary keywords in alt/class, or tiny bounds. -/
def isUIElement (img : El) : Bool :=
  let alt := jsToLower img.alt
  let cls := jsToLower img.className
  (["icon", "logo", "emoji", "sticker", "badge", "verified"].any
      (fun k => containsS k alt || containsS k cls))
    || decide (img.rect.width < 50 ∨ img.rect.height < 50)

/-- `addPositionToFilename`: insert `_position` before the (last-dot)
extension; a single-item carousel keeps its filename. -/
def addPositionToFilename (filename : String) (position total : Nat) : String :=
  if total = 1 then filename
  else
    match lastIdxOf '.' filename.data with
    | none => ⟨filename.data ++ '_' :: (Nat.repr position).data⟩
    | some i =>
      ⟨filename.data.take i ++ '_' :: (Nat.repr position).data ++ filename.data.drop i⟩

/-- The image pass of `detectCarousel`: skip profile pictures and UI
glyphs, extract and validate each URL, and keep the first occurrence of
each URL (the `uniqueImageUrls` set). -/
def imgLoop (env : JSEnv) : List El → List String → List MediaObj
  | [], _ => []
  | img :: rest, seen =>
    if isProfilePicture img || isUIElement img then imgLoop env rest seen
    else
      match extractImageUrl env.loc img with
      | none => imgLoop env rest seen
      | some url =>
        if isValidMediaUrl url && !(seen.contains url) then
          createMediaObject env url "image" img.tagName 0 :: imgLoop env rest (url :: seen)
        else imgLoop env rest seen

/-- The video pass of `detectCarousel` (no profile/UI filtering; separate
`uniqueVideoUrls` set). -/
def vidLoop (env : JSEnv) : List El → List String → List MediaObj
  | [], _ => []
  | v :: rest, seen =>
    match extractVideoUrl env.loc v with
    | none => vidLoop env rest seen
    | some url =>
      if isValidMediaUrl url && !(seen.contains url) then
        createMediaObject env url "video" v.tagName 0 :: vidLoop env rest (url :: seen)
      else vidLoop env rest seen

/-- The carousel media list before capping: all surviving images, then all
surviving videos. -/
def carouselMediaList (env : JSEnv) (a : Article) : List MediaObj :=
  imgLoop env (articleSrcsetImgs a) [] ++ vidLoop env (articleVideos a) []

/-- `mediaList.slice(0, CONFIG.instagram.maxCarouselItems)`. -/
def carouselLimited (env : JSEnv) (a : Article) : List MediaObj :=
  (carouselMediaList env a).take Config.maxCarouselItems

/-- The numbering map at the end of `detectCarousel`: position `i + 1`,
`totalItems`, and the filename suffix. -/
def addCarouselPositions (total : Nat) : Nat → List MediaObj → List MediaObj
  | _, [] => []
  | i, m :: rest =>
    { m with
      filename := addPositionToFilename m.filename (i + 1) total,
      position := some (i + 1),
      totalItems := some total } :: addCarouselPositions total (i + 1) rest

/-- `detectCarousel`: empty without an `article` container, else the capped
deduplicated media list with positions assigned. -/
def detectCarousel (env : JSEnv) : Option Article → List MediaObj
  | none => []
  | some a =>
    let limited := carouselLimited env a
    addCarouselPositions limited.length 0 limited

/-- `detectVideo`: the first `article video`, validated. -/
def detectVideo (env : JSEnv) (p : InstaPage) : List MediaObj :=
  match p.article with
  | none => []
  | some a =>
    match (articleVideos a).head? with
    | none => []
    | some v =>
      match extractVideoUrl env.loc v with
      | none => []
      | some url =>
        if isValidMediaUrl url then [createMediaObject env url "video" v.tagName 0]
        else []

/-- `detectReel`: the first `video[playsinline]` in the document,
validated. -/
def detectReel (env : JSEnv) (p : InstaPage) : List MediaObj :=
  match p.documentVideos.find? (fun v => v.playsinline) with
  | none => []
  | some v =>
    match extractVideoUrl env.loc v with
    | none => []
    | some url =>
      if isValidMediaUrl url then [createMediaObject env url "video" v.tagName 0]
      else []

/-- The scan inside `detectImage`: the first non-profile non-UI
`img[srcset]` with a valid URL. -/
def detectImageLoop (env : JSEnv) : List El → List MediaObj
  | [] => []
  | img :: rest =>
    if isProfilePicture img || isUIElement img then detectImageLoop env rest
    else
      match extractImageUrl env.loc img with
      | none => detectImageLoop env rest
      | some url =>
        if isValidMediaUrl url then [createMediaObject env url "image" img.tagName 0]
        else detectImageLoop env rest

/-- `detectImage`. -/
def detectImage (env : JSEnv) (p : InstaPage) : List MediaObj :=
  match p.article with
  | none => []
  | some a => detectImageLoop env (articleSrcsetImgs a)

/-- `detectPostType`: reel URL markers, carousel indicators, `article
video`, `article img[srcset]`, else unknown. -/
def detectPostType (env : JSEnv) (p : InstaPage) : String :=
  if containsS "/reel/" env.loc.href || containsS "/reels/" env.loc.href then "reel"
  else if hasCarouselIndicators p then "carousel"
  else if 0 < (match p.article with | none => [] | some a => articleVideos a).length then
    "video"
  else if 0 < (match p.article with | none => [] | some a => articleSrcsetImgs a).length then
    "image"
  else "unknown"

/-- Instagram `detectHeroMedia`: dispatch on the classified post type. -/
def instaDetectHeroMedia (env : JSEnv) (p : InstaPage) : List MediaObj :=
  match detectPostType env p with
  | "carousel" => detectCarousel env p.article
  | "video" => detectVideo env p
  | "reel" => detectReel env p
  | "image" => detectImage env p
  | _ => []

/-! ## Download queue (download-queue.js)

One transfer attempt bundles `downloadFile` (the transport request) and
`waitForDownload` (the terminal-event wait): it yields a download id when
the request is accepted and the `complete` event arrives, and an error
message when the transport rejects synchronously, an error event arrives,
or the 60s timeout fires — the `catch` in `downloadWithRetry` treats all
three identically. The transport oracle maps an attempt index to that
outcome. -/

/-- Per-item transfer oracle: the outcome of attempt `i` for a given media
value. -/
abbrev Transfer (μ : Type) := μ → Nat → Except String Nat

/-- Item states (`'pending' | 'downloading' | 'completed' | 'failed'`). -/
inductive DLStatus
  | pending
  | downloading
  | completed
  | failed
deriving DecidableEq

/-- A queue item as built by `add`. -/
structure QueueItem (μ : Type) where
  media : μ
  sourceUrl : String
  retryCount : Nat
  status : DLStatus
deriving DecidableEq

/-- An entry of the results list: `{media, status, downloadId?}` on success,
`{media, status: 'failed', error}` on exhaustion. -/
structure DownloadResult (μ : Type) where
  media : μ
  status : DLStatus
  downloadId : Option Nat
  error : Option String
deriving DecidableEq

/-- The `DownloadQueue` instance state. -/
structure DownloadQueueState (μ : Type) where
  queue : List (QueueItem μ)
  isProcessing : Bool
  currentDownload : Option (QueueItem μ)
  results : List (DownloadResult μ)
deriving DecidableEq

/-- `new DownloadQueue()`. -/
def DownloadQueue.init (μ : Type) : DownloadQueueState μ :=
  ⟨[], false, none, []⟩

/-- `add(mediaItems, sourceUrl)`: append pending items; never starts
processing. -/
def DownloadQueue.add (items : List μ) (sourceUrl : String)
    (q : DownloadQueueState μ) : DownloadQueueState μ :=
  { q with queue := q.queue ++ items.map (fun m => ⟨m, sourceUrl, 0, .pending⟩) }

/-- The `for (attempt = 0; attempt <= maxRetries; ...)` loop of
`downloadWithRetry`, with `remaining = maxRetries - attempt`: each
iteration makes one transfer attempt; a failure retries while attempts
remain (after the configured backoff sleep, which has no observable effect
here) and rethrows on the last attempt. The second component counts
transport invocations. -/
def runAttempts (t : Nat → Except String Nat) (attempt remaining : Nat) :
    Except String Nat × Nat :=
  match t attempt with
  | .ok id => (.ok id, 1)
  | .error e =>
    match remaining with
    | 0 => (.error e, 1)
    | r + 1 =>
      let rec_result := runAttempts t (attempt + 1) r
      (rec_result.1, rec_result.2 + 1)

/-- `downloadWithRetry(item)`: the completed result on a successful
attempt, the final error after `1 + CONFIG.downloads.retryAttempts`
failures. The count is the number of transport invocations made. -/
def downloadWithRetry (t : Nat → Except String Nat) (media : μ) :
    Except String (DownloadResult μ) × Nat :=
  match runAttempts t 0 Config.retryAttempts with
  | (.ok id, n) => (.ok ⟨media, .completed, some id, none⟩, n)
  | (.error e, n) => (.error e, n)

/-- The `while (queue.length > 0)` drain of `process()`: items are shifted
in FIFO order; a per-item exhaustion is caught and recorded as a failed
result, and the loop continues. -/
def processItems (t : Transfer μ) : List (QueueItem μ) → List (DownloadResult μ)
  | [] => []
  | item :: rest =>
    (match (downloadWithRetry (t item.media) item.media).1 with
     | .ok r => r
     | .error e => ⟨item.media, .failed, none, some e⟩) :: processItems t rest

/-- `process()`: rejects when a batch is already in flight (leaving the
state untouched, as the JS `throw` fires before any mutation), otherwise
drains the queue and returns the results list. -/
def DownloadQueue.process (t : Transfer μ) (q : DownloadQueueState μ) :
    Except String (List (DownloadResult μ)) × DownloadQueueState μ :=
  if q.isProcessing then (.error "Queue is already being processed", q)
  else
    let rs := processItems t q.queue
    (.ok rs, { queue := [], isProcessing := false, currentDownload := none, results := rs })

/-- `clear()`. -/
def DownloadQueue.clear (_q : DownloadQueueState μ) : DownloadQueueState μ :=
  { queue := [], isProcessing := false, currentDownload := none, results := [] }

/-! ### Queue lemmas -/

theorem runAttempts_all_fail {t : Nat → Except String Nat} {err : Nat → String}
    (h : ∀ i, t i = .error (err i)) :
    ∀ (remaining attempt : Nat),
      runAttempts t attempt remaining = (.error (err (attempt + remaining)), remaining + 1) := by
  intro remaining
  induction remaining with
  | zero => intro attempt; simp [runAttempts, h attempt]
  | succ r ih =>
    intro attempt
    simp only [runAttempts, h attempt, ih (attempt + 1)]
    have : attempt + 1 + r = attempt + (r + 1) := by omega
    rw [this]

theorem downloadWithRetry_all_fail {t : Nat → Except String Nat} {err : Nat → String}
    (h : ∀ i, t i = .error (err i)) (media : μ) :
    downloadWithRetry t media = (.error (err Config.retryAttempts), Config.retryAttempts + 1) := by
  unfold downloadWithRetry
  rw [runAttempts_all_fail h Config.retryAttempts 0]
  simp

theorem processItems_append (t : Transfer μ) (l1 l2 : List (QueueItem μ)) :
    processItems t (l1 ++ l2) = processItems t l1 ++ processItems t l2 := by
  induction l1 with
  | nil => rfl
  | cons item rest ih => simp [processItems, ih]

theorem downloadWithRetry_ok_media {t : Nat → Except String Nat} {media : μ}
    {r : DownloadResult μ} (h : (downloadWithRetry t media).1 = .ok r) :
    r.media = media := by
  unfold downloadWithRetry at h
  cases hr : runAttempts t 0 Config.retryAttempts with
  | mk res n =>
    rw [hr] at h
    cases res with
    | ok id => cases h; rfl
    | error e => simp at h

theorem processItems_map_media (t : Transfer μ) (l : List (QueueItem μ)) :
    (processItems t l).map DownloadResult.media = l.map QueueItem.media := by
  induction l with
  | nil => rfl
  | cons item rest ih =>
    simp only [processItems, List.map_cons, ih, List.cons.injEq, and_true]
    cases hd : (downloadWithRetry (t item.media) item.media).1 with
    | ok r => exact downloadWithRetry_ok_media hd
    | error e => rfl

/-! ## Claim C1 -/

/-- C1: for a queue item whose every transfer attempt fails, `process()`
invokes the transfer exactly `1 + CONFIG.downloads.retryAttempts` times
(4 with the configured value 3) for that item, records it in the results
list with status failed and its error, and itself resolves normally for
the batch. -/
theorem claim_C1_retry_bound {μ : Type} (t : Nat → Except String Nat)
    (err : Nat → String) (hfail : ∀ i, t i = .error (err i))
    (media : μ) (sourceUrl : String) (q : DownloadQueueState μ)
    (hidle : q.isProcessing = false) (T : Transfer μ)
    (hT : ∀ i, T media i = t i) :
    (downloadWithRetry t media).2 = 1 + Config.retryAttempts
  ∧ 1 + Config.retryAttempts = 4
  ∧ (downloadWithRetry t media).1 = .error (err Config.retryAttempts)
  ∧ (DownloadQueue.process T
      { q with queue := q.queue ++ [⟨media, sourceUrl, 0, .pending⟩] }).1
      = .ok (processItems T q.queue
          ++ [⟨media, .failed, none, some (err Config.retryAttempts)⟩]) := by
  have hd := downloadWithRetry_all_fail hfail media
  have hTt : T media = t := funext hT
  refine ⟨by rw [hd]; omega, rfl, by rw [hd], ?_⟩
  simp only [DownloadQueue.process, hidle, Bool.false_eq_true, if_false,
    processItems_append]
  simp only [processItems, hTt, hd]

/-- C1 witness: a concrete always-failing transfer is attempted exactly 4
times and yields a failed result while `process` resolves. -/
def c1Transfer : Nat → Except String Nat := fun _ => .error "network error"

theorem claim_C1_witness :
    (downloadWithRetry c1Transfer (7 : Nat)).2 = 1 + Config.retryAttempts
  ∧ (DownloadQueue.process (fun (_ : Nat) => c1Transfer)
      { queue := [⟨7, "https://example.com/p", 0, .pending⟩], isProcessing := false,
        currentDownload := none, results := [] }).1
      = .ok [⟨7, .failed, none, some "network error"⟩] := by
  have h := claim_C1_retry_bound c1Transfer (fun _ => "network error")
    (fun _ => rfl) 7 "https://example.com/p" (DownloadQueue.init Nat) rfl
    (fun _ => c1Transfer) (fun _ => rfl)
  exact ⟨h.1, by simpa [DownloadQueue.init, processItems] using h.2.2.2⟩

/-! ## Claim C2 -/

/-- The three-item scenario: item 2 permanently fails, items 1 and 3
succeed with ids `100 + m`. -/
def c2Transfer : Transfer Nat :=
  fun m _ => if m = 2 then .error "network error" else .ok (100 + m)

def c2Item (m : Nat) : QueueItem Nat := ⟨m, "https://example.com/post", 0, .pending⟩

def c2Queue : DownloadQueueState Nat := ⟨[c2Item 1, c2Item 2, c2Item 3], false, none, []⟩

/-- C2: `process()` returns exactly one result per input item, in the order
the items were added, regardless of outcome; in particular for three items
where the second exhausts all retries the results are
`[item1, item2(failed), item3]`. -/
theorem claim_C2_fifo {μ : Type} (T : Transfer μ) (q : DownloadQueueState μ)
    (hidle : q.isProcessing = false) :
    (DownloadQueue.process T q).1 = .ok (processItems T q.queue)
  ∧ (processItems T q.queue).length = q.queue.length
  ∧ (processItems T q.queue).map DownloadResult.media = q.queue.map QueueItem.media
  ∧ (DownloadQueue.process c2Transfer c2Queue).1
      = .ok [⟨1, .completed, some 101, none⟩,
             ⟨2, .failed, none, some "network error"⟩,
             ⟨3, .completed, some 103, none⟩] := by
  refine ⟨?_, ?_, processItems_map_media T q.queue, ?_⟩
  · simp [DownloadQueue.process, hidle]
  · have := congrArg List.length (processItems_map_media T q.queue)
    simpa using this
  · rfl

/-- C2 witness: the general conjuncts applied to the concrete three-item
scenario queue. -/
theorem claim_C2_witness :
    (DownloadQueue.process c2Transfer c2Queue).1 = .ok (processItems c2Transfer c2Queue.queue)
  ∧ (processItems c2Transfer c2Queue.queue).map DownloadResult.media = [1, 2, 3] := by
  have h := claim_C2_fifo c2Transfer c2Queue rfl
  refine ⟨h.1, ?_⟩
  rw [h.2.2.1]
  rfl

/-! ## Claim C6 -/

/-- C6: a `process()` call while a batch is in flight fails immediately
with an explicit error and leaves the pending queue, the results list and
the current-download bookkeeping unchanged. -/
theorem claim_C6_reentrancy {μ : Type} (T : Transfer μ) (q : DownloadQueueState μ)
    (hbusy : q.isProcessing = true) :
    DownloadQueue.process T q = (.error "Queue is already being processed", q)
  ∧ (DownloadQueue.process T q).2.queue = q.queue
  ∧ (DownloadQueue.process T q).2.results = q.results
  ∧ (DownloadQueue.process T q).2.currentDownload = q.currentDownload := by
  have h : DownloadQueue.process T q = (.error "Queue is already being processed", q) := by
    simp [DownloadQueue.process, hbusy]
  exact ⟨h, by rw [h], by rw [h], by rw [h]⟩

/-- C6 witness: a concrete busy queue. -/
def c6Queue : DownloadQueueState Nat := ⟨[c2Item 5], true, some (c2Item 4), []⟩

theorem claim_C6_witness :
    DownloadQueue.process c2Transfer c6Queue
      = (.error "Queue is already being processed", c6Queue)
  ∧ (DownloadQueue.process c2Transfer c6Queue).2.queue = [c2Item 5] := by
  have h := claim_C6_reentrancy c2Transfer c6Queue rfl
  exact ⟨h.1, by rw [h.1]; rfl⟩

/-! ## Claim C7 -/

/-- C7: `makeAbsoluteUrl` (the spec's `toAbsolute`) is idempotent for every
input url, with the base document location fixed (an http(s) page, which
is where content scripts run: its protocol is `http:`/`https:` and its
origin and href carry that scheme). -/
theorem claim_C7_toAbsolute_idem (loc : Loc)
    (hp : loc.protocol = "http:" ∨ loc.protocol = "https:")
    (ho : (startsWithL "http://".data loc.origin.data
        || startsWithL "https://".data loc.origin.data) = true)
    (hh : (startsWithL "http://".data loc.href.data
        || startsWithL "https://".data loc.href.data) = true)
    (url : String) :
    makeAbsoluteUrl loc (makeAbsoluteUrl loc url) = makeAbsoluteUrl loc url :=
  congrArg String.mk (makeAbsoluteUrlL_idem loc hp ho hh url.data)

/-- C7 witness: a concrete https location and a relative url, applied
twice. -/
def c7Loc : Loc :=
  ⟨"https:", "https://example.com", "https://example.com/a/b", "example.com"⟩

theorem claim_C7_witness :
    makeAbsoluteUrl c7Loc (makeAbsoluteUrl c7Loc "img/x.jpg")
      = makeAbsoluteUrl c7Loc "img/x.jpg"
  ∧ makeAbsoluteUrl c7Loc "img/x.jpg" = "https://example.com/a/img/x.jpg" :=
  ⟨claim_C7_toAbsolute_idem c7Loc (Or.inr rfl) (by decide) (by decide) "img/x.jpg",
   by decide⟩

/-! ## Claim C5 -/

/-- C5: for every srcset string, `getHighestResolutionFromSrcset` — and
hence `extractImageUrl` when a srcset is present — returns the URL of the
entry with the maximum declared width (entries without a parseable
`<digits>w` descriptor count as width 0), the first-occurring entry among
equals: the parsed list splits around the returned entry into a
strictly-smaller prefix and a no-larger suffix. -/
theorem claim_C5_srcset_max (s : String) (e : SrcsetEntry)
    (hmax : firstMaxEntry (parseSrcset s) = some e) (hne : e.url ≠ "") :
    getHighestResolutionFromSrcset s = some e.url
  ∧ (∃ pre post, parseSrcset s = pre ++ e :: post
      ∧ (∀ y ∈ pre, y.width < e.width) ∧ (∀ y ∈ post, y.width ≤ e.width))
  ∧ (∀ (loc : Loc) (img : El), img.srcset = s →
      extractImageUrl loc img = some (makeAbsoluteUrl loc e.url)) := by
  have hs : s ≠ "" := by
    intro h
    subst h
    have hempty : firstMaxEntry (parseSrcset "") = some ⟨"", 0⟩ := by decide
    rw [hempty] at hmax
    cases hmax
    exact hne rfl
  have hget : getHighestResolutionFromSrcset s = some e.url := by
    unfold getHighestResolutionFromSrcset
    rw [if_neg hs, head_sortEntriesDesc, hmax]
    simp [hne]
  refine ⟨hget, firstMaxEntry_split hmax, ?_⟩
  intro loc img himg
  have hsrc : img.srcset ≠ "" := by rw [himg]; exact hs
  unfold extractImageUrl
  rw [if_pos hsrc, himg, hget]

/-- C5 witness: among three entries with widths 100, 200, 200 the
first-occurring 200-width URL is returned. -/
theorem claim_C5_witness :
    getHighestResolutionFromSrcset "a.jpg 100w, b.jpg 200w, c.jpg 200w" = some "b.jpg" :=
  (claim_C5_srcset_max "a.jpg 100w, b.jpg 200w, c.jpg 200w" ⟨"b.jpg", 200⟩
    (by decide) (by decide)).1

/-! ## Claim C8 -/

/-- A plain https page environment with a 3000×3000 viewport. -/
def c8Env : JSEnv := ⟨c7Loc, 3000, 3000, 1700000000000, "ab12"⟩

/-- An image candidate with intrinsic size 2000×1000 whose bounding box
lies fully inside the viewport. -/
def c8El : El :=
  { tagName := "img", naturalWidth := 2000, naturalHeight := 1000,
    rect := { top := 0, bottom := 500, left := 0, right := 800, width := 800, height := 500 } }

/-- C8: a candidate with intrinsic size 2000×1000, full viewport
visibility and width in the >1920 quality band scores exactly
`area × viewportBonus × qualityBonus = 2000000 × 1.5 × 1.3 = 3900000`. -/
theorem claim_C8_score :
    getViewportVisibility c8Env c8El = "fully"
  ∧ (calculateElementSize c8El).width = 2000
  ∧ (calculateElementSize c8El).height = 1000
  ∧ (calculateElementSize c8El).area = 2000000
  ∧ calculateViewportBonus c8Env c8El = 1.5
  ∧ calculateQualityBonus (calculateElementSize c8El).width = 1.3
  ∧ candidateScore c8Env c8El = 3900000 := by
  have hvis : getViewportVisibility c8Env c8El = "fully" := by decide
  have hsize : calculateElementSize c8El = ⟨2000, 1000, 2000000⟩ := by
    simp only [calculateElementSize, c8El]
    norm_num
  have hbonus : calculateViewportBonus c8Env c8El = 1.5 := by
    unfold calculateViewportBonus
    rw [hvis]
    rfl
  have hqual : calculateQualityBonus (calculateElementSize c8El).width = 1.3 := by
    rw [hsize]
    unfold calculateQualityBonus
    norm_num [Config.qualityBonusHD]
  refine ⟨hvis, by rw [hsize], by rw [hsize], by rw [hsize], hbonus, hqual, ?_⟩
  simp only [candidateScore]
  rw [hqual, hbonus, hsize]
  norm_num

/-! ## Claim C10 -/

theorem string_append_assoc (a b c : String) : a ++ b ++ c = a ++ (b ++ c) := by
  cases a; cases b; cases c
  apply congrArg String.mk
  apply List.append_assoc

/-- C10: a url whose lowercase form contains none of the known extension
substrings (including the empty url) gets extension `jpg`, so
`generateFilename` produces `media_{timestamp}_{random}.jpg`; matching is
by case-insensitive substring occurrence anywhere in the URL in the fixed
priority order (`.png` in a query string beats the `.mp4` path suffix). -/
theorem claim_C10_default_ext (url : String)
    (h : ∀ pat ∈ [".png", ".gif", ".webp", ".svg", ".bmp", ".mp4", ".webm", ".mov", ".avi"],
        containsS pat (jsToLower url) = false) :
    guessExtensionFromUrl url = "jpg"
  ∧ (∀ env : JSEnv, generateFilename env url
      = "media_" ++ Nat.repr env.now ++ "_" ++ env.rnd ++ ".jpg")
  ∧ guessExtensionFromUrl "http://e/v.mp4?poster=.PNG" = "png" := by
  have h1 := h ".png" (by simp)
  have h2 := h ".gif" (by simp)
  have h3 := h ".webp" (by simp)
  have h4 := h ".svg" (by simp)
  have h5 := h ".bmp" (by simp)
  have h6 := h ".mp4" (by simp)
  have h7 := h ".webm" (by simp)
  have h8 := h ".mov" (by simp)
  have h9 := h ".avi" (by simp)
  have hjpg : guessExtensionFromUrl url = "jpg" := by
    by_cases hu : url = ""
    · simp [guessExtensionFromUrl, hu]
    · simp [guessExtensionFromUrl, hu, h1, h2, h3, h4, h5, h6, h7, h8, h9]
  refine ⟨hjpg, ?_, by decide⟩
  intro env
  unfold generateFilename
  rw [hjpg, string_append_assoc,
    show ("." ++ "jpg" : String) = ".jpg" from rfl]

/-- C10 witness: a query-only URL with no known extension substring. -/
theorem claim_C10_witness :
    guessExtensionFromUrl "https://example.com/download?id=42" = "jpg"
  ∧ generateFilename ⟨c7Loc, 3000, 3000, 1700, "ab12"⟩ "https://example.com/download?id=42"
      = "media_1700_ab12.jpg" := by
  have h := claim_C10_default_ext "https://example.com/download?id=42" (by decide)
  exact ⟨h.1, by rw [h.2.1]; rfl⟩

/-! ## Carousel dedup analysis (claims C3/C4)

`imgLoop`/`vidLoop` are each an instance of one generic accumulate-loop
over "entries": an entry is `none` when the element is skipped (filtered
out, no URL, invalid URL) and `some (url, obj)` otherwise; the loop keeps
the first occurrence of each url. -/

/-- The generic first-occurrence loop underlying `imgLoop`/`vidLoop`. -/
def dedupLoop : List (Option (String × MediaObj)) → List String → List MediaObj
  | [], _ => []
  | none :: rest, seen => dedupLoop rest seen
  | some (url, obj) :: rest, seen =>
    if !(seen.contains url) then obj :: dedupLoop rest (url :: seen)
    else dedupLoop rest seen

/-- The entry an image element contributes to the carousel image pass. -/
def imgEntry (env : JSEnv) (img : El) : Option (String × MediaObj) :=
  if isProfilePicture img || isUIElement img then none
  else
    match extractImageUrl env.loc img with
    | none => none
    | some url =>
      if isValidMediaUrl url then
        some (url, createMediaObject env url "image" img.tagName 0)
      else none

/-- The entry a video element contributes to the carousel video pass. -/
def vidEntry (env : JSEnv) (v : El) : Option (String × MediaObj) :=
  match extractVideoUrl env.loc v with
  | none => none
  | some url =>
    if isValidMediaUrl url then
      some (url, createMediaObject env url "video" v.tagName 0)
    else none

/-- The resolved, validated URLs of the qualifying image elements — the
dedup keys of the image pass. -/
def imgKeys (env : JSEnv) (l : List El) : List String :=
  l.filterMap (fun i => (imgEntry env i).map Prod.fst)

/-- The dedup keys of the video pass. -/
def vidKeys (env : JSEnv) (l : List El) : List String :=
  l.filterMap (fun v => (vidEntry env v).map Prod.fst)

theorem imgLoop_eq_dedupLoop (env : JSEnv) (l : List El) (seen : List String) :
    imgLoop env l seen = dedupLoop (l.map (imgEntry env)) seen := by
  induction l generalizing seen with
  | nil => rfl
  | cons img rest ih =>
    simp only [imgLoop, List.map_cons, imgEntry]
    by_cases hskip : isProfilePicture img || isUIElement img
    · simp only [hskip, if_true, if_pos]
      exact ih seen
    · simp only [hskip, if_false, if_neg]
      cases hurl : extractImageUrl env.loc img with
      | none => exact ih seen
      | some url =>
        by_cases hval : isValidMediaUrl url
        · simp only [hval, if_true, if_pos, dedupLoop]
          by_cases hseen : url ∈ seen
          · simp [hseen, ih seen]
          · simp [hseen, ih (url :: seen)]
        · simp only [hval, Bool.false_and, if_false, if_neg, dedupLoop]
          exact ih seen

theorem vidLoop_eq_dedupLoop (env : JSEnv) (l : List El) (seen : List String) :
    vidLoop env l seen = dedupLoop (l.map (vidEntry env)) seen := by
  induction l generalizing seen with
  | nil => rfl
  | cons v rest ih =>
    simp only [vidLoop, List.map_cons, vidEntry]
    cases hurl : extractVideoUrl env.loc v with
    | none => exact ih seen
    | some url =>
      by_cases hval : isValidMediaUrl url
      · simp only [hval, if_true, if_pos, dedupLoop]
        by_cases hseen : url ∈ seen
        · simp [hseen, ih seen]
        · simp [hseen, ih (url :: seen)]
      · simp only [hval, Bool.false_and, if_false, if_neg, dedupLoop]
        exact ih seen

/-- The keys of an entry list. -/
def entryKeys (entries : List (Option (String × MediaObj))) : List String :=
  entries.filterMap (fun e => e.map Prod.fst)

/-- The loop emits at most one object per key not yet seen. -/
theorem dedupLoop_length_le (entries : List (Option (String × MediaObj)))
    (seen : List String) :
    (dedupLoop entries seen).length
      ≤ ((entryKeys entries).toFinset \ seen.toFinset).card := by
  induction entries generalizing seen with
  | nil => simp [dedupLoop]
  | cons e rest ih =>
    cases e with
    | none =>
      simpa [dedupLoop, entryKeys] using ih seen
    | some p =>
      obtain ⟨url, obj⟩ := p
      by_cases hseen : url ∈ seen
      · have h1 : dedupLoop (some (url, obj) :: rest) seen = dedupLoop rest seen := by
          simp [dedupLoop, hseen]
        rw [h1]
        refine Nat.le_trans (ih seen) (Finset.card_le_card ?_)
        intro x hx
        rw [Finset.mem_sdiff] at hx ⊢
        refine ⟨?_, hx.2⟩
        simp only [entryKeys, List.filterMap_cons, Option.map_some, List.mem_toFinset] at hx ⊢
        exact List.mem_cons_of_mem _ (by simpa using hx.1)
      · have hmem : url ∉ seen := hseen
        have h1 : dedupLoop (some (url, obj) :: rest) seen
            = obj :: dedupLoop rest (url :: seen) := by
          simp [dedupLoop, hseen]
        rw [h1]
        simp only [List.length_cons]
        have hsub : insert url ((entryKeys rest).toFinset \ (url :: seen).toFinset)
            ⊆ (entryKeys (some (url, obj) :: rest)).toFinset \ seen.toFinset := by
          intro x hx
          rw [Finset.mem_insert] at hx
          rw [Finset.mem_sdiff]
          rcases hx with rfl | hx
          · constructor
            · simp [entryKeys]
            · simpa using hmem
          · rw [Finset.mem_sdiff] at hx
            constructor
            · simp only [entryKeys, List.filterMap_cons, Option.map_some,
                List.mem_toFinset] at hx ⊢
              exact List.mem_cons_of_mem _ (by simpa using hx.1)
            · intro hxs
              exact hx.2 (by simp only [List.toFinset_cons]; exact Finset.mem_insert_of_mem hxs)
        have hnotin : url ∉ (entryKeys rest).toFinset \ (url :: seen).toFinset := by
          rw [Finset.mem_sdiff]
          rintro ⟨-, h2⟩
          exact h2 (by simp)
        calc (dedupLoop rest (url :: seen)).length + 1
            ≤ ((entryKeys rest).toFinset \ (url :: seen).toFinset).card + 1 :=
              Nat.add_le_add_right (ih (url :: seen)) 1
          _ = (insert url ((entryKeys rest).toFinset \ (url :: seen).toFinset)).card :=
              (Finset.card_insert_of_not_mem hnotin).symm
          _ ≤ _ := Finset.card_le_card hsub

/-! ### URL validity facts -/

theorem isValidMediaUrl_props {u : String} (h : isValidMediaUrl u = true) :
    u ≠ ""
  ∧ (startsWithL "http://".data u.data || startsWithL "https://".data u.data) = true
  ∧ startsWithL "data:".data u.data = false
  ∧ u.data.length ≤ 2048 := by
  unfold isValidMediaUrl at h
  by_cases h1 : u = ""
  · rw [if_pos h1] at h; exact absurd h (by simp)
  rw [if_neg h1] at h
  by_cases h2 : (!(startsWithL "http://".data u.data
      || startsWithL "https://".data u.data)) = true
  · rw [if_pos h2] at h; exact absurd h (by simp)
  rw [if_neg h2] at h
  by_cases h3 : startsWithL "data:".data u.data = true
  · rw [if_pos h3] at h; exact absurd h (by simp)
  rw [if_neg h3] at h
  by_cases h4 : 2048 < u.data.length
  · rw [if_pos h4] at h; exact absurd h (by simp)
  refine ⟨h1, ?_, by simpa using h3, by omega⟩
  cases hb : (startsWithL "http://".data u.data || startsWithL "https://".data u.data) with
  | false => exact absurd (by simp [hb]) h2
  | true => rfl

/-- The URL invariant of the claim: non-empty, http(s), non-data, bounded
length. -/
def UrlInvariant (u : String) : Prop :=
  u ≠ ""
  ∧ (startsWithL "http://".data u.data = true ∨ startsWithL "https://".data u.data = true)
  ∧ startsWithL "data:".data u.data = false
  ∧ u.data.length ≤ 2048

theorem urlInvariant_of_valid {u : String} (h : isValidMediaUrl u = true) :
    UrlInvariant u := by
  obtain ⟨h1, h2, h3, h4⟩ := isValidMediaUrl_props h
  exact ⟨h1, Bool.or_eq_true_iff.mp h2, h3, h4⟩

/-- A validated URL is already absolute, so `makeAbsoluteUrl` fixes it. -/
theorem makeAbsoluteUrl_of_valid (loc : Loc) {u : String}
    (h : isValidMediaUrl u = true) : makeAbsoluteUrl loc u = u := by
  have hs := (isValidMediaUrl_props h).2.1
  unfold makeAbsoluteUrl
  rw [makeAbsoluteUrlL_of_http hs]

/-- The object built from a validated URL keeps that URL. -/
theorem createMediaObject_url_of_valid (env : JSEnv) {url : String}
    (mtype tagName : String) (score : ℚ) (h : isValidMediaUrl url = true) :
    (createMediaObject env url mtype tagName score).url = url := by
  simp [createMediaObject, makeAbsoluteUrl_of_valid env.loc h]

theorem imgEntry_some {env : JSEnv} {img : El} {u : String} {o : MediaObj}
    (h : imgEntry env img = some (u, o)) :
    isValidMediaUrl u = true ∧ o = createMediaObject env u "image" img.tagName 0 := by
  unfold imgEntry at h
  split at h
  · simp at h
  · split at h
    · simp at h
    · split at h
      · next url hurl hval =>
        cases h
        exact ⟨hval, rfl⟩
      · simp at h

theorem vidEntry_some {env : JSEnv} {v : El} {u : String} {o : MediaObj}
    (h : vidEntry env v = some (u, o)) :
    isValidMediaUrl u = true ∧ o = createMediaObject env u "video" v.tagName 0 := by
  unfold vidEntry at h
  split at h
  · simp at h
  · split at h
    · next url hurl hval =>
      cases h
      exact ⟨hval, rfl⟩
    · simp at h

/-- The url an entry's object carries equals its dedup key. -/
theorem imgEntry_url_eq_key {env : JSEnv} {img : El} {u : String} {o : MediaObj}
    (h : imgEntry env img = some (u, o)) : o.url = u := by
  obtain ⟨hval, rfl⟩ := imgEntry_some h
  exact createMediaObject_url_of_valid env _ _ _ hval

theorem vidEntry_url_eq_key {env : JSEnv} {v : El} {u : String} {o : MediaObj}
    (h : vidEntry env v = some (u, o)) : o.url = u := by
  obtain ⟨hval, rfl⟩ := vidEntry_some h
  exact createMediaObject_url_of_valid env _ _ _ hval

/-! ### dedupLoop: nodup and order facts -/

theorem dedupLoop_urls (entries : List (Option (String × MediaObj)))
    (seen : List String)
    (hurl : ∀ p ∈ entries, ∀ u o, p = some (u, o) → o.url = u) :
    ((dedupLoop entries seen).map MediaObj.url).Nodup
  ∧ (∀ u ∈ (dedupLoop entries seen).map MediaObj.url, u ∉ seen)
  ∧ List.Sublist ((dedupLoop entries seen).map MediaObj.url) (entryKeys entries) := by
  induction entries generalizing seen with
  | nil => simp [dedupLoop, entryKeys]
  | cons e rest ih =>
    have hrest : ∀ p ∈ rest, ∀ u o, p = some (u, o) → o.url = u :=
      fun p hp => hurl p (List.mem_cons_of_mem _ hp)
    cases e with
    | none =>
      have hk : entryKeys (none :: rest) = entryKeys rest := by simp [entryKeys]
      rw [show dedupLoop (none :: rest) seen = dedupLoop rest seen from rfl, hk]
      exact ih seen hrest
    | some p =>
      obtain ⟨url, obj⟩ := p
      have hobj : obj.url = url := hurl _ (List.mem_cons_self _ _) url obj rfl
      have hk : entryKeys (some (url, obj) :: rest) = url :: entryKeys rest := by
        simp [entryKeys]
      by_cases hseen : url ∈ seen
      · have h1 : dedupLoop (some (url, obj) :: rest) seen = dedupLoop rest seen := by
          simp [dedupLoop, hseen]
        rw [h1, hk]
        obtain ⟨hnd, hnin, hsub⟩ := ih seen hrest
        exact ⟨hnd, hnin, hsub.cons url⟩
      · have h1 : dedupLoop (some (url, obj) :: rest) seen
            = obj :: dedupLoop rest (url :: seen) := by
          simp [dedupLoop, hseen]
        rw [h1, hk]
        obtain ⟨hnd, hnin, hsub⟩ := ih (url :: seen) hrest
        simp only [List.map_cons, hobj]
        refine ⟨?_, ?_, ?_⟩
        · rw [List.nodup_cons]
          refine ⟨fun hmem => ?_, hnd⟩
          exact hnin url hmem (List.mem_cons_self _ _)
        · intro u hu
          rcases List.mem_cons.mp hu with rfl | hu'
          · exact hseen
          · exact fun hus => hnin u hu' (List.mem_cons_of_mem _ hus)
        · exact hsub.cons₂ url

theorem dedupLoop_mem {entries : List (Option (String × MediaObj))}
    {seen : List String} :
    ∀ o ∈ dedupLoop entries seen, ∃ u, some (u, o) ∈ entries := by
  induction entries generalizing seen with
  | nil => simp [dedupLoop]
  | cons e rest ih =>
    intro o ho
    cases e with
    | none =>
      obtain ⟨u, hu⟩ := ih o ho
      exact ⟨u, List.mem_cons_of_mem _ hu⟩
    | some p =>
      obtain ⟨url, obj⟩ := p
      by_cases hseen : url ∈ seen
      · rw [show dedupLoop (some (url, obj) :: rest) seen = dedupLoop rest seen
            from by simp [dedupLoop, hseen]] at ho
        obtain ⟨u, hu⟩ := ih o ho
        exact ⟨u, List.mem_cons_of_mem _ hu⟩
      · rw [show dedupLoop (some (url, obj) :: rest) seen
            = obj :: dedupLoop rest (url :: seen)
            from by simp [dedupLoop, hseen]] at ho
        rcases List.mem_cons.mp ho with rfl | ho'
        · exact ⟨url, List.mem_cons_self _ _⟩
        · obtain ⟨u, hu⟩ := ih o ho'
          exact ⟨u, List.mem_cons_of_mem _ hu⟩

/-! ### Position numbering facts -/

theorem addCarouselPositions_length (t : Nat) :
    ∀ (i : Nat) (l : List MediaObj), (addCarouselPositions t i l).length = l.length := by
  intro i l
  induction l generalizing i with
  | nil => rfl
  | cons m rest ih => simp [addCarouselPositions, ih]

theorem addCarouselPositions_get? (t : Nat) :
    ∀ (l : List MediaObj) (i k : Nat),
      (addCarouselPositions t i l).get? k = (l.get? k).map (fun m =>
        { m with filename := addPositionToFilename m.filename (i + k + 1) t,
                 position := some (i + k + 1), totalItems := some t }) := by
  intro l
  induction l with
  | nil => intro i k; simp [addCarouselPositions]
  | cons m rest ih =>
    intro i k
    cases k with
    | zero => simp [addCarouselPositions]
    | succ k' =>
      simp only [addCarouselPositions, List.get?]
      rw [ih (i + 1) k']
      have : i + 1 + k' + 1 = i + (k' + 1) + 1 := by omega
      rw [this]

theorem addCarouselPositions_map_url (t : Nat) :
    ∀ (i : Nat) (l : List MediaObj),
      (addCarouselPositions t i l).map MediaObj.url = l.map MediaObj.url := by
  intro i l
  induction l generalizing i with
  | nil => rfl
  | cons m rest ih => simp [addCarouselPositions, ih]

theorem addCarouselPositions_mem {t i : Nat} {l : List MediaObj} :
    ∀ m ∈ addCarouselPositions t i l, ∃ m0 ∈ l, m.url = m0.url := by
  intro m hm
  have : m.url ∈ (addCarouselPositions t i l).map MediaObj.url :=
    List.mem_map_of_mem _ hm
  rw [addCarouselPositions_map_url] at this
  obtain ⟨m0, hm0, hurl⟩ := List.mem_map.mp this
  exact ⟨m0, hm0, hurl ▸ rfl⟩

theorem addCarouselPositions_totalItems {t : Nat} :
    ∀ {i : Nat} {l : List MediaObj} (m : MediaObj),
      m ∈ addCarouselPositions t i l → m.totalItems = some t := by
  intro i l
  induction l generalizing i with
  | nil => intro m hm; simp [addCarouselPositions] at hm
  | cons x rest ih =>
    intro m hm
    rcases List.mem_cons.mp hm with rfl | hm'
    · rfl
    · exact ih m hm'

theorem addCarouselPositions_map_position (t : Nat) :
    ∀ (l : List MediaObj) (i : Nat),
      (addCarouselPositions t i l).map MediaObj.position
        = (List.range l.length).map (fun k => some (i + k + 1)) := by
  intro l
  induction l with
  | nil => intro i; rfl
  | cons m rest ih =>
    intro i
    simp only [addCarouselPositions, List.map_cons, List.length_cons,
      List.range_succ_eq_map, List.map_map]
    rw [ih (i + 1)]
    refine congrArg (List.cons _) ?_
    apply List.map_congr_left
    intro k _
    simp only [Function.comp_apply]
    congr 1
    omega

/-! ## Claim C3 -/

/-- The resolved URL of a qualifying DOM entry of the post container. -/
def nodeResolvedUrl (env : JSEnv) : ArticleNode → Option String
  | .image el => extractImageUrl env.loc el
  | .video el => extractVideoUrl env.loc el

/-- The media kind of a DOM entry. -/
def nodeKind : ArticleNode → String
  | .image _ => "image"
  | .video _ => "video"

/-- C3 counterexample: an article whose DOM order is [video, image], both
resolving to the same URL. The two entries have K = 1 distinct resolved
URL, yet `detectCarousel` outputs 2 items (the image and video passes
deduplicate separately), and the output lists the image before the video,
against DOM order. -/
def cexEnv : JSEnv := ⟨c7Loc, 3000, 3000, 1700, "ab12"⟩

def cexImg : El :=
  { tagName := "img", srcset := "http://h/a.jpg 100w",
    rect := { top := 0, bottom := 600, left := 0, right := 800, width := 800, height := 600 } }

def cexVid : El := { tagName := "video", src := "http://h/a.jpg" }

def cexArticle : Article := ⟨[.video cexVid, .image cexImg]⟩

theorem claim_C3_counterexample :
    (cexArticle.nodes.filterMap (nodeResolvedUrl cexEnv)).dedup = ["http://h/a.jpg"]
  ∧ cexArticle.nodes.length = 2
  ∧ (detectCarousel cexEnv (some cexArticle)).length = 2
  ∧ ¬((detectCarousel cexEnv (some cexArticle)).length
      ≤ ((cexArticle.nodes.filterMap (nodeResolvedUrl cexEnv)).dedup).length)
  ∧ cexArticle.nodes.map nodeKind = ["video", "image"]
  ∧ (detectCarousel cexEnv (some cexArticle)).map MediaObj.type = ["image", "video"] := by
  decide

/-- C3 amended: the carousel extraction yields the qualifying images (in
DOM order, deduplicated by resolved URL among images) followed by the
qualifying videos (in DOM order, deduplicated among videos), capped at
`CONFIG.instagram.maxCarouselItems`; deduplication is per media kind, so
the output length is bounded by K_img + K_vid, the per-kind counts of
distinct resolved URLs (not by the overall count K). -/
theorem claim_C3_carousel_dedup (env : JSEnv) (a : Article) :
    (detectCarousel env (some a)).length
      ≤ (imgKeys env (articleSrcsetImgs a)).toFinset.card
        + (vidKeys env (articleVideos a)).toFinset.card
  ∧ (detectCarousel env (some a)).length ≤ Config.maxCarouselItems
  ∧ ((imgLoop env (articleSrcsetImgs a) []).map MediaObj.url).Nodup
  ∧ ((vidLoop env (articleVideos a) []).map MediaObj.url).Nodup
  ∧ List.Sublist ((imgLoop env (articleSrcsetImgs a) []).map MediaObj.url)
      (imgKeys env (articleSrcsetImgs a))
  ∧ List.Sublist ((vidLoop env (articleVideos a) []).map MediaObj.url)
      (vidKeys env (articleVideos a))
  ∧ detectCarousel env (some a)
      = addCarouselPositions (carouselLimited env a).length 0 (carouselLimited env a) := by
  have hek_img : entryKeys ((articleSrcsetImgs a).map (imgEntry env))
      = imgKeys env (articleSrcsetImgs a) := by
    simp only [entryKeys, imgKeys, List.filterMap_map]
    rfl
  have hek_vid : entryKeys ((articleVideos a).map (vidEntry env))
      = vidKeys env (articleVideos a) := by
    simp only [entryKeys, vidKeys, List.filterMap_map]
    rfl
  have himg : ∀ p ∈ (articleSrcsetImgs a).map (imgEntry env),
      ∀ u o, p = some (u, o) → o.url = u := by
    intro p hp u o hpo
    obtain ⟨img, -, rfl⟩ := List.mem_map.mp hp
    exact imgEntry_url_eq_key hpo
  have hvid : ∀ p ∈ (articleVideos a).map (vidEntry env),
      ∀ u o, p = some (u, o) → o.url = u := by
    intro p hp u o hpo
    obtain ⟨v, -, rfl⟩ := List.mem_map.mp hp
    exact vidEntry_url_eq_key hpo
  have hlen : (detectCarousel env (some a)).length = (carouselLimited env a).length := by
    simp [detectCarousel, addCarouselPositions_length]
  have hb_img : (imgLoop env (articleSrcsetImgs a) []).length
      ≤ (imgKeys env (articleSrcsetImgs a)).toFinset.card := by
    rw [imgLoop_eq_dedupLoop]
    have h := dedupLoop_length_le ((articleSrcsetImgs a).map (imgEntry env)) []
    simpa [hek_img] using h
  have hb_vid : (vidLoop env (articleVideos a) []).length
      ≤ (vidKeys env (articleVideos a)).toFinset.card := by
    rw [vidLoop_eq_dedupLoop]
    have h := dedupLoop_length_le ((articleVideos a).map (vidEntry env)) []
    simpa [hek_vid] using h
  have hlim_le : (carouselLimited env a).length ≤ (carouselMediaList env a).length := by
    simp only [carouselLimited]
    rw [List.length_take]
    exact min_le_right _ _
  have hlist : (carouselMediaList env a).length
      = (imgLoop env (articleSrcsetImgs a) []).length
        + (vidLoop env (articleVideos a) []).length := by
    simp [carouselMediaList]
  obtain ⟨hnd_i, -, hsub_i⟩ :=
    dedupLoop_urls ((articleSrcsetImgs a).map (imgEntry env)) [] himg
  obtain ⟨hnd_v, -, hsub_v⟩ :=
    dedupLoop_urls ((articleVideos a).map (vidEntry env)) [] hvid
  refine ⟨?_, ?_, ?_, ?_, ?_, ?_, rfl⟩
  · rw [hlen]
    calc (carouselLimited env a).length
        ≤ (carouselMediaList env a).length := hlim_le
      _ = _ + _ := hlist
      _ ≤ _ := Nat.add_le_add hb_img hb_vid
  · rw [hlen]
    simp only [carouselLimited]
    rw [List.length_take]
    exact min_le_left _ _
  · rw [imgLoop_eq_dedupLoop]; exact hnd_i
  · rw [vidLoop_eq_dedupLoop]; exact hnd_v
  · rw [imgLoop_eq_dedupLoop, ← hek_img]; exact hsub_i
  · rw [vidLoop_eq_dedupLoop, ← hek_vid]; exact hsub_v

/-! ## Claim C4 -/

theorem string_data_append (a b : String) : (a ++ b).data = a.data ++ b.data := by
  cases a; cases b; rfl

theorem string_ext {a b : String} (h : a.data = b.data) : a = b := by
  cases a; cases b; cases h; rfl

theorem addPositionToFilename_one (f : String) (p : Nat) :
    addPositionToFilename f p 1 = f := by
  simp [addPositionToFilename]

theorem addPositionToFilename_eq_of_lastIdx {f : String} {i : Nat} (p t : Nat)
    (ht : t ≠ 1) (h : lastIdxOf '.' f.data = some i) :
    addPositionToFilename f p t
      = ⟨f.data.take i ++ '_' :: (Nat.repr p).data ++ f.data.drop i⟩ := by
  unfold addPositionToFilename
  rw [if_neg ht, h]

/-- For a multi-item carousel, the position is inserted before the last-dot
extension. -/
theorem addPositionToFilename_dot (name ext : String) (p t : Nat)
    (ht : t ≠ 1) (hext : '.' ∉ ext.data) :
    addPositionToFilename (name ++ "." ++ ext) p t
      = name ++ "_" ++ Nat.repr p ++ "." ++ ext := by
  have hdata : (name ++ "." ++ ext).data = name.data ++ '.' :: ext.data := by
    rw [string_data_append, string_data_append]
    simp
  have hlast : lastIdxOf '.' (name ++ "." ++ ext).data = some name.data.length := by
    rw [hdata]
    exact lastIdxOf_append_not_mem hext
  rw [addPositionToFilename_eq_of_lastIdx p t ht hlast]
  apply string_ext
  rw [hdata]
  simp only [List.take_left, List.drop_left, string_data_append]
  simp [List.append_assoc]

/-- For a dot-free filename the position is appended at the end. -/
theorem addPositionToFilename_nodot (f : String) (p t : Nat)
    (ht : t ≠ 1) (h : '.' ∉ f.data) :
    addPositionToFilename f p t = f ++ "_" ++ Nat.repr p := by
  unfold addPositionToFilename
  rw [if_neg ht, lastIdxOf_eq_none_of_not_mem h]
  apply string_ext
  simp [string_data_append]

/-- C4 counterexample: a single-item carousel. The claim says `position` /
`totalItems` are assigned only when the post has more than one item, but
the code assigns `position = 1`, `totalItems = 1` here too (while indeed
leaving the filename unsuffixed). -/
def c4Article : Article := ⟨[.image cexImg]⟩

theorem claim_C4_counterexample :
    (carouselLimited cexEnv c4Article).length = 1
  ∧ (detectCarousel cexEnv (some c4Article)).map MediaObj.position = [some 1]
  ∧ (detectCarousel cexEnv (some c4Article)).map MediaObj.totalItems = [some 1]
  ∧ (detectCarousel cexEnv (some c4Article)).map MediaObj.filename = ["a.jpg"] := by
  decide

/-- C4 amended: for every carousel extraction with N surviving items the
output carries positions exactly `1..N` in extraction order and
`totalItems = N` — for every N ≥ 1, not only for N > 1; the filename is
suffixed with `_position` before its extension exactly when N > 1, and
kept unchanged when N = 1. -/
theorem claim_C4_positions (env : JSEnv) (a : Article) :
    (detectCarousel env (some a)).length = (carouselLimited env a).length
  ∧ (detectCarousel env (some a)).map MediaObj.position
      = (List.range (carouselLimited env a).length).map (fun k => some (k + 1))
  ∧ (∀ m ∈ detectCarousel env (some a),
      m.totalItems = some (carouselLimited env a).length)
  ∧ (∀ k : Nat, (detectCarousel env (some a)).get? k
      = ((carouselLimited env a).get? k).map (fun m =>
          { m with
            filename := addPositionToFilename m.filename (k + 1)
              (carouselLimited env a).length,
            position := some (k + 1),
            totalItems := some (carouselLimited env a).length }))
  ∧ ((carouselLimited env a).length = 1 →
      (detectCarousel env (some a)).map MediaObj.filename
        = (carouselLimited env a).map MediaObj.filename)
  ∧ (∀ (name ext : String) (p t : Nat), t ≠ 1 → '.' ∉ ext.data →
      addPositionToFilename (name ++ "." ++ ext) p t
        = name ++ "_" ++ Nat.repr p ++ "." ++ ext)
  ∧ (∀ (f : String) (p : Nat), addPositionToFilename f p 1 = f) := by
  have hdet : detectCarousel env (some a)
      = addCarouselPositions (carouselLimited env a).length 0 (carouselLimited env a) :=
    rfl
  refine ⟨?_, ?_, ?_, ?_, ?_, addPositionToFilename_dot, addPositionToFilename_one⟩
  · rw [hdet, addCarouselPositions_length]
  · rw [hdet, addCarouselPositions_map_position]
    apply List.map_congr_left
    intro k _
    simp
  · intro m hm
    rw [hdet] at hm
    exact addCarouselPositions_totalItems m hm
  · intro k
    rw [hdet, addCarouselPositions_get?]
    simp only [Nat.zero_add]
  · intro h1
    obtain ⟨m, hm⟩ := List.length_eq_one.mp h1
    rw [hdet, h1, hm]
    simp [addCarouselPositions, addPositionToFilename_one]

/-- C4 witness: the two-item carousel gets positions 1, 2, totalItems 2,
and the `_position` suffix lands before the extension. -/
theorem claim_C4_witness :
    (detectCarousel cexEnv (some cexArticle)).map MediaObj.position = [some 1, some 2]
  ∧ (∀ m ∈ detectCarousel cexEnv (some cexArticle), m.totalItems = some 2)
  ∧ addPositionToFilename ("a" ++ "." ++ "jpg") 1 2
      = "a" ++ "_" ++ Nat.repr 1 ++ "." ++ "jpg" := by
  have h := claim_C4_positions cexEnv cexArticle
  refine ⟨?_, ?_, h.2.2.2.2.2.1 "a" "jpg" 1 2 (by decide) (by decide)⟩
  · rw [h.2.1]
    decide
  · intro m hm
    rw [h.2.2.1 m hm]
    decide

/-! ## Claim C9: URL validity of every produced media object -/

theorem createMediaObject_valid {env : JSEnv} {url : String}
    (mtype tagName : String) (score : ℚ) (hval : isValidMediaUrl url = true) :
    isValidMediaUrl (createMediaObject env url mtype tagName score).url = true := by
  rw [createMediaObject_url_of_valid env mtype tagName score hval]
  exact hval

theorem imgLoop_valid {env : JSEnv} {l : List El} {seen : List String} :
    ∀ m ∈ imgLoop env l seen, isValidMediaUrl m.url = true := by
  intro m hm
  rw [imgLoop_eq_dedupLoop] at hm
  obtain ⟨u, hu⟩ := dedupLoop_mem m hm
  obtain ⟨img, -, heq⟩ := List.mem_map.mp hu
  obtain ⟨hval, hobj⟩ := imgEntry_some heq
  rw [hobj]
  exact createMediaObject_valid _ _ _ hval

theorem vidLoop_valid {env : JSEnv} {l : List El} {seen : List String} :
    ∀ m ∈ vidLoop env l seen, isValidMediaUrl m.url = true := by
  intro m hm
  rw [vidLoop_eq_dedupLoop] at hm
  obtain ⟨u, hu⟩ := dedupLoop_mem m hm
  obtain ⟨v, -, heq⟩ := List.mem_map.mp hu
  obtain ⟨hval, hobj⟩ := vidEntry_some heq
  rw [hobj]
  exact createMediaObject_valid _ _ _ hval

theorem detectCarousel_valid {env : JSEnv} {oa : Option Article} :
    ∀ m ∈ detectCarousel env oa, isValidMediaUrl m.url = true := by
  intro m hm
  cases oa with
  | none => simp [detectCarousel] at hm
  | some a =>
    obtain ⟨m0, hm0, hurl⟩ := addCarouselPositions_mem m hm
    have hm0' : m0 ∈ carouselMediaList env a :=
      List.mem_of_mem_take (by simpa [carouselLimited] using hm0)
    rw [hurl]
    rcases List.mem_append.mp hm0' with h | h
    · exact imgLoop_valid m0 h
    · exact vidLoop_valid m0 h

theorem detectImageLoop_valid {env : JSEnv} :
    ∀ (l : List El), ∀ m ∈ detectImageLoop env l, isValidMediaUrl m.url = true := by
  intro l
  induction l with
  | nil => intro m hm; simp [detectImageLoop] at hm
  | cons img rest ih =>
    intro m hm
    by_cases hskip : (isProfilePicture img || isUIElement img) = true
    · rw [show detectImageLoop env (img :: rest) = detectImageLoop env rest
          from by simp [detectImageLoop, hskip]] at hm
      exact ih m hm
    · cases hurl : extractImageUrl env.loc img with
      | none =>
        rw [show detectImageLoop env (img :: rest) = detectImageLoop env rest
            from by simp [detectImageLoop, hskip, hurl]] at hm
        exact ih m hm
      | some url =>
        by_cases hval : isValidMediaUrl url = true
        · rw [show detectImageLoop env (img :: rest)
              = [createMediaObject env url "image" img.tagName 0]
              from by simp [detectImageLoop, hskip, hurl, hval]] at hm
          rw [List.mem_singleton] at hm
          subst hm
          exact createMediaObject_valid _ _ _ hval
        · rw [show detectImageLoop env (img :: rest) = detectImageLoop env rest
              from by simp [detectImageLoop, hskip, hurl, hval]] at hm
          exact ih m hm

theorem detectVideo_valid {env : JSEnv} {p : InstaPage} :
    ∀ m ∈ detectVideo env p, isValidMediaUrl m.url = true := by
  intro m hm
  unfold detectVideo at hm
  split at hm
  · simp at hm
  · split at hm
    · simp at hm
    · split at hm
      · simp at hm
      · split at hm
        · next hval =>
          rw [List.mem_singleton] at hm
          subst hm
          exact createMediaObject_valid _ _ _ hval
        · simp at hm

theorem detectReel_valid {env : JSEnv} {p : InstaPage} :
    ∀ m ∈ detectReel env p, isValidMediaUrl m.url = true := by
  intro m hm
  unfold detectReel at hm
  split at hm
  · simp at hm
  · split at hm
    · simp at hm
    · split at hm
      · next hval =>
        rw [List.mem_singleton] at hm
        subst hm
        exact createMediaObject_valid _ _ _ hval
      · simp at hm

theorem instaDetect_valid {env : JSEnv} {p : InstaPage} :
    ∀ m ∈ instaDetectHeroMedia env p, isValidMediaUrl m.url = true := by
  intro m hm
  unfold instaDetectHeroMedia at hm
  split at hm
  · exact detectCarousel_valid m hm
  · exact detectVideo_valid m hm
  · exact detectReel_valid m hm
  · cases ha : p.article with
    | none =>
      rw [show detectImage env p = [] from by simp [detectImage, ha]] at hm
      simp at hm
    | some a =>
      rw [show detectImage env p = detectImageLoop env (articleSrcsetImgs a)
          from by simp [detectImage, ha]] at hm
      exact detectImageLoop_valid _ m hm
  · simp at hm

theorem detectHeroVideo_valid {env : JSEnv} {page : GenericPage} {m : MediaObj}
    (h : detectHeroVideo env page = some m) : isValidMediaUrl m.url = true := by
  simp only [detectHeroVideo] at h
  split at h
  · simp at h
  · split at h
    · simp at h
    · split at h
      · next hval =>
        cases h
        exact createMediaObject_valid _ _ _ hval
      · simp at h

theorem detectHeroImage_valid {env : JSEnv} {page : GenericPage} {m : MediaObj}
    (h : detectHeroImage env page = some m) : isValidMediaUrl m.url = true := by
  simp only [detectHeroImage] at h
  split at h
  · simp at h
  · split at h
    · simp at h
    · split at h
      · next hval =>
        cases h
        exact createMediaObject_valid _ _ _ hval
      · simp at h

theorem detectHeroBackgroundImage_valid {env : JSEnv} {page : GenericPage} {m : MediaObj}
    (h : detectHeroBackgroundImage env page = some m) : isValidMediaUrl m.url = true := by
  simp only [detectHeroBackgroundImage] at h
  split at h
  · simp at h
  · split at h
    · simp at h
    · split at h
      · next hval =>
        cases h
        exact createMediaObject_valid _ _ _ hval
      · simp at h

theorem genericDetect_valid {env : JSEnv} {page : GenericPage} :
    ∀ m ∈ genericDetectHeroMedia env page, isValidMediaUrl m.url = true := by
  intro m hm
  cases hv : detectHeroVideo env page with
  | some v =>
    have hlist : genericDetectHeroMedia env page = [v] := by
      simp [genericDetectHeroMedia, Config.prioritizeVideos, hv]
    rw [hlist, List.mem_singleton] at hm
    subst hm
    exact detectHeroVideo_valid hv
  | none =>
    have hlist : genericDetectHeroMedia env page = genericImageStages env page := by
      simp [genericDetectHeroMedia, Config.prioritizeVideos, hv]
    rw [hlist] at hm
    cases hi : detectHeroImage env page with
    | some i =>
      have h2 : genericImageStages env page = [i] := by
        simp [genericImageStages, hi]
      rw [h2, List.mem_singleton] at hm
      subst hm
      exact detectHeroImage_valid hi
    | none =>
      cases hb : detectHeroBackgroundImage env page with
      | some b =>
        have h2 : genericImageStages env page = [b] := by
          simp [genericImageStages, hi, hb]
        rw [h2, List.mem_singleton] at hm
        subst hm
        exact detectHeroBackgroundImage_valid hb
      | none =>
        have h2 : genericImageStages env page = [] := by
          simp [genericImageStages, hi, hb]
        rw [h2] at hm
        simp at hm

/-- C9: every media object produced by the generic detector or the
Instagram detector has a non-empty http(s), non-data URL of length at most
2048; and `isValidMediaUrl` rejects a `data:image/png;base64,` URL
regardless of its length. -/
theorem claim_C9_url_invariant :
    (∀ (env : JSEnv) (page : GenericPage) (m : MediaObj),
        m ∈ genericDetectHeroMedia env page → UrlInvariant m.url)
  ∧ (∀ (env : JSEnv) (p : InstaPage) (m : MediaObj),
        m ∈ instaDetectHeroMedia env p → UrlInvariant m.url)
  ∧ (∀ rest : String,
        isValidMediaUrl ("data:image/png;base64," ++ rest) = false) := by
  refine ⟨?_, ?_, ?_⟩
  · intro env page m hm
    exact urlInvariant_of_valid (genericDetect_valid m hm)
  · intro env p m hm
    exact urlInvariant_of_valid (instaDetect_valid m hm)
  · intro rest
    cases hb : isValidMediaUrl ("data:image/png;base64," ++ rest) with
    | false => rfl
    | true =>
      exfalso
      have hp := isValidMediaUrl_props hb
      rcases hp.2.1.symm.trans rfl |>.symm |> Bool.or_eq_true_iff.mp with hs | hs
      · obtain ⟨t, ht⟩ := (startsWithL_iff_exists _ _).mp hs
        rw [string_data_append,
          show ("data:image/png;base64," : String).data
            = 'd' :: ("ata:image/png;base64," : String).data from rfl,
          show ("http://" : String).data = 'h' :: ("ttp://" : String).data from rfl] at ht
        simp at ht
      · obtain ⟨t, ht⟩ := (startsWithL_iff_exists _ _).mp hs
        rw [string_data_append,
          show ("data:image/png;base64," : String).data
            = 'd' :: ("ata:image/png;base64," : String).data from rfl,
          show ("https://" : String).data = 'h' :: ("ttps://" : String).data from rfl] at ht
        simp at ht

/-- A throwaway media object for `headD`. -/
def dummyMedia : MediaObj := ⟨"", "", "", 0, "", 0, none, none⟩

theorem headD_mem {α : Type} {l : List α} (h : l ≠ []) (d : α) : l.headD d ∈ l := by
  cases l with
  | nil => exact absurd rfl h
  | cons x xs => simp

/-- C9 witness inputs: a generic page with one large visible image and an
Instagram single-image page. -/
def c9Img : El :=
  { tagName := "img", src := "http://h/hero.jpg", naturalWidth := 2000,
    naturalHeight := 1000,
    rect := { top := 0, bottom := 500, left := 0, right := 800, width := 800, height := 500 } }

def c9Page : GenericPage := { images := [c9Img] }

def c9Insta : InstaPage := { article := some c4Article }

theorem claim_C9_witness :
    UrlInvariant ((genericDetectHeroMedia cexEnv c9Page).headD dummyMedia).url
  ∧ UrlInvariant ((instaDetectHeroMedia cexEnv c9Insta).headD dummyMedia).url
  ∧ isValidMediaUrl ("data:image/png;base64," ++ "AAAA") = false := by
  have h := claim_C9_url_invariant
  refine ⟨h.1 cexEnv c9Page _ (headD_mem ?_ dummyMedia),
    h.2.1 cexEnv c9Insta _ (headD_mem ?_ dummyMedia), h.2.2 "AAAA"⟩
  · decide
  · decide

end MediaHeroCatch
